import Mathlib

/-!
Verification development for the Vi language compiler (ViLang).

The definitions below are a shallow embedding of the two core stages of the
compiler: the lexer and import resolver of src/parser.py, and the analysis
and emission passes of src/codegen/dart_codegen.py.  Python dictionaries are
modelled as association lists in insertion order, Python sets as lists with
insert-if-absent, machine integers as Int, and the file-system collaborator
of the import resolver as an explicit environment function.  Source line and
column fields of tokens, which are used only for diagnostics, are omitted.
Iterating scanners that are not structurally recursive take an explicit fuel
argument; the public wrappers supply fuel larger than the input length, which
is always sufficient because every iteration consumes at least one character.
-/

namespace ViSpec

/-- Numeric value of a literal.  Python stores int(s) when the scanned
numeral has no dot and float(s) otherwise; the float case keeps the scanned
text, which is all the compiler ever inspects apart from int() truncation. -/
inductive NumVal where
  | int (i : Int)
  | float (raw : String)
deriving DecidableEq, Repr

/-- Value of a literal expression together with its value type tag
(number, string or boolean), mirroring the value and value_type fields. -/
inductive Lit where
  | num (n : NumVal)
  | str (s : String)
  | bool (b : Bool)
deriving DecidableEq, Repr

/-- Expression nodes, mirroring the tagged dictionaries produced by parse. -/
inductive Expr where
  | lit (v : Lit)
  | evar (name : String)
  | binop (op : String) (left right : Expr)
  | unop (op : String) (operand : Expr)
  | member (obj : Expr) (field : String)
  | index (obj idx : Expr)
  | call (fn : Expr) (args : List Expr)
  | methodCall (obj : Expr) (method : String) (args : List Expr)
  | ternary (cond thenE elseE : Expr)
  | arr (elems : List Expr)
  | obj (props : List (String × Expr))
  | kvpair (key : String) (value : Expr)
deriving Repr

/-- Statement nodes: assignment, return, conditional, for-each, bare
expression and the attribute-mutation statement modify_container. -/
inductive Stmt where
  | assign (target value : Expr)
  | ret (value : Expr)
  | sif (cond : Expr) (thenB elseB : List Stmt)
  | sfor (v : String) (iter : Expr) (body : List Stmt)
  | exprStmt (e : Expr)
  | modify (target : Expr) (attrs : List (String × Expr))
deriving Repr

/-- Import items: a wildcard or an explicit name list. -/
inductive ImportItems where
  | star
  | names (l : List String)
deriving DecidableEq, Repr

/-- One import record of a Program. -/
structure ImportDecl where
  source : String
  items : ImportItems
deriving Repr

/-- Top-level variable declaration (the initializer expression). -/
structure VarDecl where
  value : Expr
deriving Repr

/-- Top-level function declaration. -/
structure Func where
  params : List String
  body : List Stmt
deriving Repr

/-- Container declaration: attribute mapping plus inline nested containers,
each nested container carrying the name the parser stored on it. -/
inductive Container where
  | mk (attributes : List (String × Expr)) (childrenDef : List (String × Container))
deriving Repr

/-- Attribute mapping of a container. -/
def Container.attributes : Container → List (String × Expr)
  | .mk a _ => a

/-- Inline nested child containers of a container, with their names. -/
def Container.childrenDef : Container → List (String × Container)
  | .mk _ c => c

/-- The Program produced by parse: imports, the three top-level mappings
and the designated main container name.  The variables mapping is named
vars here because variables is a reserved word of the proof language. -/
structure Program where
  imports : List ImportDecl
  vars : List (String × VarDecl)
  functions : List (String × Func)
  containers : List (String × Container)
  mainContainer : Option String
deriving Repr

/-! ## Association-list operations modelling Python dict behaviour -/

/-- Python dict item assignment: replace the value at an existing key in
place, otherwise append the new binding at the end. -/
def updateOne {α : Type} : List (String × α) → String → α → List (String × α)
  | [], k, v => [(k, v)]
  | p :: rest, k, v =>
    if p.1 = k then (k, v) :: rest else p :: updateOne rest k v

/-- Python dict.update: fold the overlay into the base, key by key. -/
def dictUpdate {α : Type} (base overlay : List (String × α)) :
    List (String × α) :=
  overlay.foldl (fun acc p => updateOne acc p.1 p.2) base

/-- Python set/dict-key insertion used by the analysis tables: append the
element only when it is not already present. -/
def insertIfAbsent (l : List String) (x : String) : List String :=
  if x ∈ l then l else l ++ [x]

/-! ## Lexer: comment stripping (remove_comments_with_lines)

The Python function splits the text into lines, applies the inline regular
expression that deletes every non-greedy open-marker..close-marker group,
and blanks out every line from a line that opens a multi-line comment
through the first line containing the close marker.  The per-root scan-ahead
loop of the source is rendered as an equivalent line-by-line pass carrying
an inside-a-comment flag; the mapping from stripped line numbers to original
line numbers, used only for diagnostics, is omitted. -/

/-- Substring test, modelling the Python in operator on strings. -/
def hasSub (cs pat : List Char) : Bool :=
  match cs with
  | [] => pat.isPrefixOf ([] : List Char)
  | _ :: rest => pat.isPrefixOf cs || hasSub rest pat

/-- Scan for the first close marker and return the suffix after it. -/
def dropToClose : List Char → Option (List Char)
  | '#' :: '>' :: rest => some rest
  | _ :: rest => dropToClose rest
  | [] => none

/-- One pass of the inline-comment regular expression substitution: delete
every leftmost-shortest open..close group on the line.  A failed match at an
open marker means no close marker follows anywhere, so the rest is kept. -/
def subCommentsGo : Nat → List Char → List Char
  | 0, cs => cs
  | _ + 1, [] => []
  | fuel + 1, c :: rest =>
    if c = '<' && rest.head? = some '#' then
      match dropToClose rest.tail with
      | some rest' => subCommentsGo fuel rest'
      | none => c :: rest
    else c :: subCommentsGo fuel rest

/-- Inline comment removal on one line (re.sub of the comment group). -/
def subComments (cs : List Char) : List Char :=
  subCommentsGo (cs.length + 1) cs

/-- Split a character list into lines at newline characters. -/
def splitLines : List Char → List (List Char)
  | [] => [[]]
  | c :: rest =>
    if c = '\n' then [] :: splitLines rest
    else
      match splitLines rest with
      | l :: ls => (c :: l) :: ls
      | [] => [[c]]

/-- Join lines back with newline separators. -/
def joinLines : List (List Char) → List Char
  | [] => []
  | l :: ls =>
    match ls with
    | [] => l
    | _ :: _ => l ++ '\n' :: joinLines ls

/-- Line-by-line stripping pass.  The flag records that a multi-line
comment is open; the opening line, every interior line and the closing line
are replaced by empty lines, exactly as the scan-ahead loop of the source
blanks lines i through j inclusive. -/
def stripText : List (List Char) → Bool → List (List Char)
  | [], _ => []
  | line :: rest, true =>
    [] :: stripText rest (!hasSub line ['#', '>'])
  | line :: rest, false =>
    if hasSub line ['<', '#'] && !hasSub line ['#', '>'] then
      [] :: stripText rest true
    else
      subComments line :: stripText rest false

/-- Comment stripping over a whole text (character-list form). -/
def removeCommentsL (cs : List Char) : List Char :=
  joinLines (stripText (splitLines cs) false)

/-- Comment stripping over a whole text, modelling the text component of
remove_comments_with_lines (the line map is diagnostic only). -/
def removeComments (s : String) : String :=
  String.mk (removeCommentsL s.data)

/-! ## Lexer: tokenize

The character-level scanner of tokenize, with the indentation stack.  The
line and column fields of tokens are diagnostics and are omitted; a token is
its type tag together with its value. -/

/-- Token values: none, a numeric value, or a string (also used for the
spelling of identifiers, keywords and operators). -/
inductive TokVal where
  | vnone
  | vnum (n : NumVal)
  | vstr (s : String)
deriving DecidableEq, Repr

/-- A token: type tag and value. -/
structure Token where
  ttype : String
  tval : TokVal
deriving DecidableEq, Repr

/-- Python str.strip character class (whitespace). -/
def pyWS (c : Char) : Bool :=
  c = ' ' || c = '\t' || c = '\n' || c = '\r' || c = '\x0b' || c = '\x0c'

/-- Python lstrip. -/
def pyLstrip (cs : List Char) : List Char :=
  cs.dropWhile pyWS

/-- Python strip. -/
def pyStrip (cs : List Char) : List Char :=
  ((cs.dropWhile pyWS).reverse.dropWhile pyWS).reverse

/-- Characters the numeric scanner keeps consuming: digits and dots. -/
def numChar (c : Char) : Bool :=
  c.isDigit || c = '.'

/-- Characters an identifier keeps consuming: alphanumerics and underscore
(the source uses the Python isalnum test; ASCII agrees on all source
programs considered here). -/
def identChar (c : Char) : Bool :=
  c.isAlphanum || c = '_'

/-- Digit-string value. -/
def digitsVal (ds : List Char) : Nat :=
  ds.foldl (fun a c => a * 10 + (c.toNat - '0'.toNat)) 0

/-- Python int() on a scanned dot-free numeral with optional leading minus. -/
def intOfNum : List Char → Int
  | '-' :: ds => -(digitsVal ds : Int)
  | ds => (digitsVal ds : Int)

/-- The NUMBER token for a scanned numeral: float(s) when a dot occurs in
the numeral, int(s) otherwise. -/
def numToken (body : List Char) : Token :=
  if '.' ∈ body then ⟨"NUMBER", .vnum (.float (String.mk body))⟩
  else ⟨"NUMBER", .vnum (.int (intOfNum body))⟩

/-- The reserved keyword set of tokenize. -/
def keywords : List String :=
  ["main", "from", "import", "if", "else", "for", "in", "return",
   "true", "false", "and", "or", "not", "all"]

/-- Two-character operator table, matched greedily before single characters. -/
def twoCharOp (a b : Char) : Option String :=
  if a = '>' && b = '=' then some "GTE"
  else if a = '<' && b = '=' then some "LTE"
  else if a = '=' && b = '=' then some "EQ"
  else if a = '!' && b = '=' then some "NEQ"
  else none

/-- Single-character token table. -/
def singleCharOp (c : Char) : Option String :=
  if c = '=' then some "ASSIGN"
  else if c = '+' then some "PLUS"
  else if c = '-' then some "MINUS"
  else if c = '*' then some "MULTIPLY"
  else if c = '/' then some "DIVIDE"
  else if c = '!' then some "NOT"
  else if c = '>' then some "GT"
  else if c = '<' then some "LT"
  else if c = ':' then some "COLON"
  else if c = ',' then some "COMMA"
  else if c = '.' then some "DOT"
  else if c = '(' then some "LPAREN"
  else if c = ')' then some "RPAREN"
  else if c = '[' then some "LBRACKET"
  else if c = ']' then some "RBRACKET"
  else if c = '\x7b' then some "LBRACE"
  else if c = '\x7d' then some "RBRACE"
  else none

/-- String-literal body scanner: consume until the matching quote, a
backslash taking the following character literally. -/
def scanStrBody : List Char → Char → List Char × List Char
  | [], _ => ([], [])
  | '\\' :: c :: rest, q =>
    let (s, r) := scanStrBody rest q
    (c :: s, r)
  | c :: rest, q =>
    if c = q then ([], rest)
    else
      let (s, r) := scanStrBody rest q
      (c :: s, r)

/-- The character loop of tokenize over one stripped line.  Branch order is
that of the source: whitespace skip, number (a minus is folded into the
numeral exactly when the next character is a digit), string, identifier or
keyword, two-character operator, single-character operator, skip.  Each
iteration consumes at least one character, so fuel beyond the line length is
never exhausted. -/
def scanChars : Nat → List Char → List Token
  | 0, _ => []
  | _ + 1, [] => []
  | fuel + 1, c :: rest =>
    if c = ' ' || c = '\t' then
      scanChars fuel rest
    else if c.isDigit || (c = '-' && (match rest with
        | d :: _ => d.isDigit
        | [] => false)) then
      if c = '-' then
        numToken ('-' :: rest.takeWhile numChar) ::
          scanChars fuel (rest.dropWhile numChar)
      else
        numToken ((c :: rest).takeWhile numChar) ::
          scanChars fuel ((c :: rest).dropWhile numChar)
    else if c = '"' || c = '\'' then
      let (sv, rest') := scanStrBody rest c
      ⟨"STRING", .vstr (String.mk sv)⟩ :: scanChars fuel rest'
    else if c.isAlpha || c = '_' then
      let ident := (c :: rest).takeWhile identChar
      let tt := if String.mk ident ∈ keywords then "KEYWORD" else "IDENTIFIER"
      Token.mk tt (.vstr (String.mk ident)) ::
        scanChars fuel ((c :: rest).dropWhile identChar)
    else
      match rest with
      | d :: rest2 =>
        match twoCharOp c d with
        | some tt => ⟨tt, .vstr (String.mk [c, d])⟩ :: scanChars fuel rest2
        | none =>
          match singleCharOp c with
          | some tt => ⟨tt, .vstr (String.mk [c])⟩ :: scanChars fuel rest
          | none => scanChars fuel rest
      | [] =>
        match singleCharOp c with
        | some tt => ⟨tt, .vstr (String.mk [c])⟩ :: scanChars fuel rest
        | none => scanChars fuel rest

/-- Pop indentation levels greater than the current level, one DEDENT per
popped level. -/
def popDedents : List Nat → Nat → List Nat × List Token
  | [], _ => ([], [])
  | s :: stack, lvl =>
    if s > lvl then
      let (st', ts) := popDedents stack lvl
      (st', ⟨"DEDENT", .vnone⟩ :: ts)
    else
      (s :: stack, [])

/-- Tokenize one line under the current indentation stack: blank lines are
skipped entirely; otherwise indentation tokens, the scanned tokens of the
stripped line, and a NEWLINE. -/
def lexLine (stack : List Nat) (line : List Char) : List Nat × List Token :=
  if (pyStrip line).isEmpty then
    (stack, [])
  else
    let indentLevel := line.length - (pyLstrip line).length
    let stripped := pyStrip line
    let (stack', indentToks) :=
      if indentLevel > stack.headD 0 then
        (indentLevel :: stack, [⟨"INDENT", .vnone⟩])
      else if indentLevel < stack.headD 0 then
        popDedents stack indentLevel
      else
        (stack, [])
    (stack', indentToks ++ scanChars (stripped.length + 1) stripped ++
      [⟨"NEWLINE", .vnone⟩])

/-- Full tokenizer: strip comments, scan each line, then close every open
indentation level and append EOF. -/
def tokenize (source : String) : List Token :=
  let text := removeCommentsL source.data
  let lines := splitLines text
  let scanned := lines.foldl
    (fun (acc : List Nat × List Token) line =>
      let (st', ts) := lexLine acc.1 line
      (st', acc.2 ++ ts))
    ([0], [])
  scanned.2 ++ List.replicate (scanned.1.length - 1) ⟨"DEDENT", .vnone⟩ ++
    [⟨"EOF", .vnone⟩]

/-! ## Import resolver (resolve_imports)

The file system and the nested tokenize-and-parse step are collaborators of
the resolver: the environment returns, for a base directory and a source
locator, the parsed Program of the resolved file together with the directory
of that file (the new base for its own imports), or nothing when the path
does not exist, the fetch fails, or the nested parse fails.  The Python
recursion has no depth bound; the fuel argument models the interpreter
recursion limit, and an exhausted fuel behaves like a failed import because
the blanket per-import exception handler of the source also swallows a
recursion error raised by the nested call. -/

/-- Loader and parser collaborator of the import resolver. -/
structure ImportEnv where
  fetch : String → String → Option (Program × String)

/-- Wildcard merge: dict.update of the three mappings of the resolved module
into the importing Program. -/
def mergeWildcard (acc resolved : Program) : Program :=
  { acc with
    vars := dictUpdate acc.vars resolved.vars,
    functions := dictUpdate acc.functions resolved.functions,
    containers := dictUpdate acc.containers resolved.containers }

/-- One explicitly named item: looked up in the variable, function and
container mappings of the resolved module in that fixed order, the first hit
copied into the importing Program, an item absent from all three mappings
passed over without any effect. -/
def namedStep (resolved a : Program) (item : String) : Program :=
  match resolved.vars.lookup item with
  | some v => { a with vars := updateOne a.vars item v }
  | none =>
    match resolved.functions.lookup item with
    | some f => { a with functions := updateOne a.functions item f }
    | none =>
      match resolved.containers.lookup item with
      | some c => { a with containers := updateOne a.containers item c }
      | none => a

/-- Explicit-name merge over the item list in order. -/
def mergeNamed (acc resolved : Program) (items : List String) : Program :=
  items.foldl (namedStep resolved) acc

/-- Processing of one import record: an import whose fetch fails contributes
nothing (the source wraps the whole attempt in a blanket exception handler
and passes); a fetched module first has its own imports resolved by the
given sub-resolver, then is merged by wildcard or by explicit names. -/
def importStep (env : ImportEnv) (resolveSub : Program → String → Program)
    (base : String) (acc : Program) (imp : ImportDecl) : Program :=
  match env.fetch base imp.source with
  | none => acc
  | some (prog, importBase) =>
    let resolved := resolveSub prog importBase
    match imp.items with
    | .star => mergeWildcard acc resolved
    | .names items => mergeNamed acc resolved items

/-- The body of resolve_imports: return unchanged on an empty import list,
otherwise process the imports in declaration order depth-first and clear
the import list. -/
def resolveImportsCore (env : ImportEnv) : Nat → Program → String → Program
  | 0, ast, _ => { ast with imports := [] }
  | fuel + 1, ast, base =>
    if ast.imports.isEmpty then ast
    else
      { ast.imports.foldl
          (importStep env (fun prog importBase =>
            resolveImportsCore env fuel prog importBase) base)
          ast
        with imports := [] }

/-- Public import resolution.  The Except type records the checked
ImportError failure mode of the compiler interface; the implementation
catches every per-import failure and continues, so an error value is never
produced. -/
def resolveImports (env : ImportEnv) (fuel : Nat) (ast : Program)
    (base : String) : Except String Program :=
  .ok (resolveImportsCore env fuel ast base)

/-! ## Code generator: analysis (DartCodegen.analyze)

The four analysis tables: repeated containers, the parameter-to-container
map built from click handlers of repeated containers, the modified-container
table (the state-lift set) and the called-by-functions set. -/

/-- Python int() applied to the value of a number literal: identity on
integers, truncation toward zero on floats. -/
def NumVal.toInt : NumVal → Int
  | .int i => i
  | .float raw =>
    match raw.data with
    | '-' :: ds => -(digitsVal (ds.takeWhile Char.isDigit) : Int)
    | ds => (digitsVal (ds.takeWhile Char.isDigit) : Int)

/-- Printed form of a numeric value, modelling Python str on the stored
int or float (floats keep their scanned spelling). -/
def numValStr : NumVal → String
  | .int i => toString i
  | .float raw => raw

/-- The integer dimensions kept from a repeat_by array: number literals
pass through int(), every other element shape is dropped. -/
def litIntDims (elems : List Expr) : List Int :=
  elems.filterMap (fun e =>
    match e with
    | .lit (.num n) => some n.toInt
    | _ => none)

/-- Pass 1 of analyze: containers whose repeat_by attribute is an array
with exactly two integer-literal dimensions, recorded as
(rows, cols, rows * cols). -/
def repeatedContainersOf (P : Program) : List (String × (Int × Int × Int)) :=
  P.containers.foldl
    (fun acc p =>
      match p.2.attributes.lookup "repeat_by" with
      | some (.arr elems) =>
        match litIntDims elems with
        | [rows, cols] => updateOne acc p.1 (rows, cols, rows * cols)
        | _ => acc
      | _ => acc)
    []

/-- Pass 2 of analyze: for every repeated container whose on_click is a
call of a known user function with at least one parameter, bind that first
parameter name to the container name under the function name. -/
def paramContainerMapOf (P : Program)
    (repeated : List (String × (Int × Int × Int))) :
    List (String × List (String × String)) :=
  P.containers.foldl
    (fun acc p =>
      if (repeated.lookup p.1).isSome then
        match p.2.attributes.lookup "on_click" with
        | some (.call (.evar fname) _) =>
          match P.functions.lookup fname with
          | some fn =>
            match fn.params with
            | p0 :: _ =>
              updateOne acc fname (updateOne ((acc.lookup fname).getD []) p0 p.1)
            | [] => acc
          | none => acc
        | _ => acc
      else acc)
    []

/-- Root identifier of a member-access chain (the _base_name walk). -/
def baseName : Expr → Option String
  | .member obj _ => baseName obj
  | .evar n => some n
  | _ => none

/-- Record one attribute-mutation statement in the modified-container
table: create the entry for the container if absent, then mark every
mutated attribute name. -/
def recordMod (tbl : List (String × List String)) (cname : String)
    (attrs : List (String × Expr)) : List (String × List String) :=
  let tbl1 := if (tbl.lookup cname).isSome then tbl else tbl ++ [(cname, [])]
  attrs.foldl
    (fun t p => updateOne t cname (insertIfAbsent ((t.lookup cname).getD []) p.1))
    tbl1

/-- Resolution of an attribute-mutation target to a container name: a bare
variable resolves through the parameter map of the enclosing function with
the variable name itself as default, a member chain resolves to its root
identifier, and any other shape resolves to nothing. -/
def resolveModTarget (pcm : List (String × String)) : Expr → Option String
  | .evar v => some ((pcm.lookup v).getD v)
  | .member obj f => baseName (.member obj f)
  | _ => none

mutual

/-- Pass 3 of analyze on one statement: record attribute mutations and
recurse into the then, else and body blocks. -/
def scanStmt (pcm : List (String × String))
    (tbl : List (String × List String)) : Stmt → List (String × List String)
  | .modify target attrs =>
    match resolveModTarget pcm target with
    | some c => recordMod tbl c attrs
    | none => tbl
  | .sif _ th el => scanStmts pcm (scanStmts pcm tbl th) el
  | .sfor _ _ b => scanStmts pcm tbl b
  | _ => tbl

/-- Pass 3 of analyze on a statement list, in order. -/
def scanStmts (pcm : List (String × String))
    (tbl : List (String × List String)) : List Stmt → List (String × List String)
  | [] => tbl
  | s :: rest => scanStmts pcm (scanStmt pcm tbl s) rest

end

/-- Pass 3 of analyze over all functions: the state-lift table mapping a
container name to the attribute names ever mutated on it. -/
def modifiedContainersOf (P : Program)
    (pcmAll : List (String × List (String × String))) :
    List (String × List String) :=
  P.functions.foldl
    (fun tbl p => scanStmts ((pcmAll.lookup p.1).getD []) tbl p.2.body)
    []

mutual

/-- Pass 4 of analyze on one statement: collect the names of user functions
appearing as the callee of a bare expression-statement call inside a
different function, recursing into nested blocks. -/
def findCallsStmt (fnames : List String) (current : String)
    (acc : List String) : Stmt → List String
  | .exprStmt e =>
    match e with
    | .call (.evar fname) _ =>
      if fname ∈ fnames && fname ≠ current then insertIfAbsent acc fname else acc
    | _ => acc
  | .sif _ th el =>
    findCallsStmts fnames current (findCallsStmts fnames current acc th) el
  | .sfor _ _ b => findCallsStmts fnames current acc b
  | _ => acc

/-- Pass 4 of analyze on a statement list. -/
def findCallsStmts (fnames : List String) (current : String)
    (acc : List String) : List Stmt → List String
  | [] => acc
  | s :: rest => findCallsStmts fnames current (findCallsStmt fnames current acc s) rest

end

/-- Pass 4 of analyze over all functions: the set of functions called by a
different user function through a bare expression-statement call. -/
def calledByOf (P : Program) : List String :=
  let fnames := P.functions.map (·.1)
  P.functions.foldl (fun acc p => findCallsStmts fnames p.1 acc p.2.body) []

/-- The four analysis tables of DartCodegen.analyze. -/
structure Cg where
  repeated : List (String × (Int × Int × Int))
  pcm : List (String × List (String × String))
  modified : List (String × List String)
  calledBy : List String

/-- Full analysis pass. -/
def analyze (P : Program) : Cg :=
  let rep := repeatedContainersOf P
  let pcm := paramContainerMapOf P rep
  { repeated := rep
    pcm := pcm
    modified := modifiedContainersOf P pcm
    calledBy := calledByOf P }

/-- Membership of an attribute in the modified table of a container. -/
def memModified (cg : Cg) (cname field : String) : Bool :=
  match cg.modified.lookup cname with
  | some props => field ∈ props
  | none => false

/-- Element type of a lifted state list, by attribute name. -/
def listElemType (prop : String) : String :=
  if prop = "text_content" then "String"
  else if prop = "visibility" then "bool"
  else if prop = "color" then "Color?"
  else if prop = "text_content_style" then "TextStyle?"
  else "dynamic"

/-- Default element of a lifted state list, by attribute name. -/
def listDefault (prop : String) : String :=
  if prop = "text_content" then "\"\""
  else if prop = "visibility" then "true"
  else "null"

/-- The declaration line of one lifted state-list field. -/
def stateFieldLine (cname prop : String) (count : Int) : String :=
  "  List<" ++ listElemType prop ++ "> " ++ cname ++ "_" ++ prop ++
    " = List.filled(" ++ toString count ++ ", " ++ listDefault prop ++
    ", growable: false);"

/-- The state-list declaration block of the stateful class: one fixed-length
list field per modified attribute of every repeated container, followed by a
blank line per container. -/
def stateFieldLines (cg : Cg) : List String :=
  cg.repeated.foldl
    (fun acc p =>
      match cg.modified.lookup p.1 with
      | some props =>
        acc ++ props.map (fun prop => stateFieldLine p.1 prop p.2.2.2) ++ [""]
      | none => acc)
    []

/-! ## Code generator: expression emission (DartCodegen.generate_expr) -/

/-- Dynamic generator state: the function currently being generated, the
for-loop cell-variable map, the inside-a-repeated-widget flag and the
local-variable declarations of the current function. -/
structure Dyn where
  currentFunc : Option String := none
  cellVarMap : List (String × (String × String)) := []
  inRepeat : Bool := false
  locals : List String := []

/-- The string-interpolation substitution of emitted string literals: every
leftmost group of an opening brace, one or more non-closing-brace characters
and a closing brace is rewritten to a dollar interpolation; an opening brace
not followed by such a group is copied unchanged.  This mirrors the regular
expression of the source, whose content class excludes only the closing
brace, so a doubled opening brace is swallowed into the group. -/
def subBracesGo : Nat → List Char → List Char
  | 0, cs => cs
  | _ + 1, [] => []
  | fuel + 1, c :: rest =>
    if c = '\x7b' then
      let content := rest.takeWhile (fun x => x ≠ '\x7d')
      match rest.dropWhile (fun x => x ≠ '\x7d') with
      | '\x7d' :: rest' =>
        if content.isEmpty then c :: subBracesGo fuel rest
        else '$' :: c :: (content ++ '\x7d' :: subBracesGo fuel rest')
      | _ => c :: subBracesGo fuel rest
    else c :: subBracesGo fuel rest

/-- String-interpolation substitution over a string. -/
def subBraces (s : String) : String :=
  String.mk (subBracesGo (s.data.length + 1) s.data)

/-- Emission of a string literal: quoted verbatim when it contains no
opening brace, otherwise quoted with the interpolation substitution. -/
def genLitString (v : String) : String :=
  if v.data.contains '\x7b' then "\"" ++ subBraces v ++ "\""
  else "\"" ++ v ++ "\""

/-- The cell-coordinate regular expression of the source: a match of the
field against letter X, one or more digits, letter Y, one or more digits,
anchored at the start only; trailing characters are ignored. -/
def parseXY (field : String) : Option (Nat × Nat) :=
  match field.data with
  | 'X' :: rest =>
    let dx := rest.takeWhile Char.isDigit
    if dx.isEmpty then none
    else
      match rest.dropWhile Char.isDigit with
      | 'Y' :: rest2 =>
        let dy := rest2.takeWhile Char.isDigit
        if dy.isEmpty then none else some (digitsVal dx, digitsVal dy)
      | _ => none
  | _ => none

mutual

/-- Expression emission.  The branch order and fall-through structure follow
generate_expr: literals, variables, binary and unary operations, calls with
their built-in special cases, member accesses with the repeat-index, cell
variable, bound-parameter and direct grid-cell patterns, index accesses,
ternaries, arrays, objects and method calls; a key-value pair has no branch
in the source and falls to the final null. -/
def genExpr (cg : Cg) (d : Dyn) : Expr → String
  | .lit (.num n) => numValStr n
  | .lit (.str v) => genLitString v
  | .lit (.bool b) => if b then "true" else "false"
  | .evar n => n
  | .binop op l r =>
    let ls := genExpr cg d l
    let rs := genExpr cg d r
    let ops := if op = "and" then "&&" else if op = "or" then "||" else op
    "(" ++ ls ++ " " ++ ops ++ " " ++ rs ++ ")"
  | .unop op e =>
    let ops := if op = "not" then "!" else op
    ops ++ genExpr cg d e
  | .call fn args =>
    let argStrs := genExprList cg d args
    let fname : Option String := match fn with
      | .evar n => some n
      | _ => none
    if fname = some "length" && !argStrs.isEmpty then
      argStrs.headD "" ++ ".length"
    else if fname = some "rgb" && argStrs.length = 3 then
      "const Color.fromRGBO(" ++ argStrs.getD 0 "" ++ ", " ++ argStrs.getD 1 "" ++
        ", " ++ argStrs.getD 2 "" ++ ", 1.0)"
    else if fname = some "random" && argStrs.length = 2 then
      "(Random().nextInt(" ++ argStrs.getD 1 "" ++ " - " ++ argStrs.getD 0 "" ++
        " + 1) + " ++ argStrs.getD 0 "" ++ ")"
    else if fname = some "wait_sec" && argStrs.length = 1 then
      "await Future.delayed(Duration(seconds: " ++ argStrs.headD "" ++ "))"
    else if fname = some "visit" && argStrs.length = 1 then
      "print('Navigate to: ' + " ++ argStrs.headD "" ++ ".toString())"
    else if fname = some "play" && argStrs.length = 1 then
      "print('Play media: ' + " ++ argStrs.headD "" ++ ".toString())"
    else
      genExpr cg d fn ++ "(" ++ String.intercalate ", " argStrs ++ ")"
  | .member objE field =>
    let isRepeatIndex := d.inRepeat &&
      (match objE with
       | .evar n => n = "repeat_by"
       | _ => false) && field = "index"
    if isRepeatIndex then "index"
    else
      let cellPat : Option String := match objE with
        | .evar vname =>
          match d.cellVarMap.lookup vname with
          | some (cname, idxVar) =>
            if memModified cg cname field then
              some (cname ++ "_" ++ field ++ "[" ++ idxVar ++ "]")
            else none
          | none => none
        | _ => none
      match cellPat with
      | some s => s
      | none =>
        let paramPat : Option String := match objE with
          | .evar vname =>
            match d.currentFunc with
            | some cf =>
              match ((cg.pcm.lookup cf).getD []).lookup vname with
              | some cname =>
                if memModified cg cname field then
                  some (cname ++ "_" ++ field ++ "[" ++ vname ++ "]")
                else none
              | none => none
            | none => none
          | _ => none
        match paramPat with
        | some s => s
        | none =>
          let gridPat : Option String := match objE with
            | .member (.evar cname) innerField =>
              match cg.repeated.lookup cname with
              | some (_, cols, _) =>
                match parseXY innerField with
                | some (x, y) =>
                  some (cname ++ "_" ++ field ++ "[" ++
                    toString ((y : Int) * cols + (x : Int)) ++ "]")
                | none => none
              | none => none
            | _ => none
          match gridPat with
          | some s => s
          | none => genExpr cg d objE ++ "." ++ field
  | .index objE idxE =>
    genExpr cg d objE ++ "[" ++ genExpr cg d idxE ++ "]"
  | .ternary c t e =>
    "(" ++ genExpr cg d c ++ " ? " ++ genExpr cg d t ++ " : " ++
      genExpr cg d e ++ ")"
  | .arr elems =>
    "[" ++ String.intercalate ", " (genExprList cg d elems) ++ "]"
  | .obj props =>
    "\x7b" ++ String.intercalate ", " (genExprProps cg d props) ++ "\x7d"
  | .methodCall objE method args =>
    let objS := genExpr cg d objE
    let argStrs := genExprList cg d args
    if method = "add" then objS ++ ".add(" ++ String.intercalate ", " argStrs ++ ")"
    else if method = "remove" then
      objS ++ ".remove(" ++ String.intercalate ", " argStrs ++ ")"
    else if method = "index" then
      objS ++ ".indexOf(" ++ String.intercalate ", " argStrs ++ ")"
    else objS ++ "." ++ method ++ "(" ++ String.intercalate ", " argStrs ++ ")"
  | .kvpair _ _ => "null"

/-- Expression emission over an argument or element list. -/
def genExprList (cg : Cg) (d : Dyn) : List Expr → List String
  | [] => []
  | e :: es => genExpr cg d e :: genExprList cg d es

/-- Expression emission over object-literal properties. -/
def genExprProps (cg : Cg) (d : Dyn) : List (String × Expr) → List String
  | [] => []
  | (k, v) :: ps => ("\"" ++ k ++ "\": " ++ genExpr cg d v) :: genExprProps cg d ps

end

/-- The flat cell index emitted for a direct grid member target: a field
matching the cell-coordinate pattern on a registered repeated container
yields row times columns plus column, every other shape yields zero. -/
def cellIndexFromMember (cg : Cg) (e : Expr) : String :=
  match e with
  | .member obj field =>
    match parseXY field with
    | some (x, y) =>
      match baseName (.member obj field) with
      | some base =>
        match cg.repeated.lookup base with
        | some (_, cols, _) => toString ((y : Int) * cols + (x : Int))
        | none => "0"
      | none => "0"
    | none => "0"
  | _ => "0"

/-! ## Code generator: colors, dimensions and text styles -/

/-- Python int() on a literal value, as applied to palette shade indexes. -/
def litToInt : Lit → Int
  | .num n => n.toInt
  | .bool b => if b then 1 else 0
  | .str s =>
    match s.data with
    | '-' :: ds => -(digitsVal (ds.takeWhile Char.isDigit) : Int)
    | ds => (digitsVal (ds.takeWhile Char.isDigit) : Int)

/-- Named-color table for a bare color variable. -/
def colorNameVar (n : String) : Option String :=
  if n = "red" then some "Colors.red"
  else if n = "blue" then some "Colors.blue"
  else if n = "green" then some "Colors.green"
  else if n = "yellow" then some "Colors.yellow"
  else if n = "purple" then some "Colors.purple"
  else if n = "orange" then some "Colors.orange"
  else if n = "pink" then some "Colors.pink"
  else if n = "white" then some "Colors.white"
  else if n = "black" then some "Colors.black"
  else if n = "gray" then some "Colors.grey"
  else none

/-- Named-color table for an indexed palette shade; this table has no white
or black entry and defaults to grey. -/
def colorNameIndexed (n : String) : String :=
  if n = "red" then "Colors.red"
  else if n = "blue" then "Colors.blue"
  else if n = "green" then "Colors.green"
  else if n = "yellow" then "Colors.yellow"
  else if n = "purple" then "Colors.purple"
  else if n = "orange" then "Colors.orange"
  else if n = "pink" then "Colors.pink"
  else if n = "gray" then "Colors.grey"
  else "Colors.grey"

/-- Color resolution of the Dart generator: a named color variable, an
indexed palette shade with a literal index, or an rgb call with three
arguments; anything else resolves to nothing. -/
def resolveColor (cg : Cg) (d : Dyn) : Option Expr → Option String
  | none => none
  | some e =>
    match e with
    | .evar n => colorNameVar n
    | .index (.evar n) (.lit l) =>
      some (colorNameIndexed n ++ "[" ++ toString (litToInt l) ++ "]")
    | .call (.evar fn) args =>
      if fn = "rgb" then
        let argStrs := genExprList cg d args
        if argStrs.length = 3 then
          some ("const Color.fromRGBO(" ++ argStrs.getD 0 "" ++ ", " ++
            argStrs.getD 1 "" ++ ", " ++ argStrs.getD 2 "" ++ ", 1.0)")
        else none
      else none
    | _ => none

/-- Trailing-zero trim of a fraction digit string, keeping one digit. -/
def trimTrailZeros (l : List Char) : List Char :=
  let t := (l.reverse.dropWhile (fun c => c = '0')).reverse
  if t.isEmpty then ['0'] else t

/-- Decimal rendering of digits divided by one hundred, written the way the
Python float of that quotient prints for the numerals that occur in source
programs (shift of the decimal point by two places, trimmed). -/
def div100OfDigits (neg : Bool) (intDigits fracDigits : List Char) : String :=
  let all := intDigits ++ fracDigits
  let p : Int := (intDigits.length : Int) - 2
  let ipartRaw := if p ≤ 0 then ['0'] else all.take p.toNat
  let ipart :=
    let t := ipartRaw.dropWhile (fun c => c = '0')
    if t.isEmpty then ['0'] else t
  let fpart := trimTrailZeros (List.replicate (-p).toNat '0' ++ all.drop p.toNat)
  (if neg then "-" else "") ++ String.mk ipart ++ "." ++ String.mk fpart

/-- Printed form of a numeric attribute value divided by one hundred, as in
the width and height resolution of the generator. -/
def div100Str : NumVal → String
  | .int i => div100OfDigits (i < 0) (toString i.natAbs).data []
  | .float raw =>
    let body := match raw.data with
      | '-' :: cs => cs
      | cs => cs
    let ip := body.takeWhile (fun c => c ≠ '.')
    let fp := match body.dropWhile (fun c => c ≠ '.') with
      | _ :: f => f
      | [] => []
    div100OfDigits (raw.data.headD ' ' = '-') ip fp

/-- Dimension resolution of the Dart generator: a number literal becomes a
screen-width fraction, the max keyword becomes infinity, anything else is
not resolved. -/
def resolveDimension : Option Expr → Option String
  | none => none
  | some (.lit (.num v)) =>
    some ("MediaQuery.of(context).size.width * " ++ div100Str v)
  | some (.lit (.str s)) => if s = "max" then some "double.infinity" else none
  | some (.evar n) => if n = "max" then some "double.infinity" else none
  | _ => none

/-- Python str of a literal value, as used by the alignment reader. -/
def litStr : Lit → String
  | .str s => s
  | .bool b => if b then "True" else "False"
  | .num n => numValStr n

/-- Alignment value reader: the name of a variable or the printed value of
a literal. -/
def alignVal : Option Expr → Option String
  | some (.evar n) => some n
  | some (.lit l) => some (litStr l)
  | _ => none

/-- Conversion of a text_content_style array into a TextStyle constructor:
font weight and style from the font key, font size coerced to a float
rendering, and a color resolved directly or generated for a ternary. -/
def genTextStyleFromExpr (cg : Cg) (d : Dyn) (styleExpr : Expr) : Option String :=
  match styleExpr with
  | .arr elems =>
    let parts := elems.foldl
      (fun acc e =>
        match e with
        | .kvpair key val =>
          if key = "font" then
            let vn := match val with
              | .evar n => n
              | _ => ""
            if vn = "bold" then acc ++ ["fontWeight: FontWeight.bold"]
            else if vn = "italic" then acc ++ ["fontStyle: FontStyle.italic"]
            else acc
          else if key = "font_size" then
            let sz := match val with
              | .lit (.num (.int i)) => toString i ++ ".0"
              | .lit (.num (.float raw)) => raw
              | .lit (.bool b) => if b then "1.0" else "0.0"
              | .lit (.str s) => s
              | _ => genExpr cg d val
            acc ++ ["fontSize: " ++ sz]
          else if key = "color" then
            let c : Option String := match val with
              | .ternary c' t' e' => some (genExpr cg d (.ternary c' t' e'))
              | _ => resolveColor cg d (some val)
            match c with
            | some cs => if cs.isEmpty then acc else acc ++ ["color: " ++ cs]
            | none => acc
          else acc
        | _ => acc)
      []
    if parts.isEmpty then none
    else some ("TextStyle(" ++ String.intercalate ", " parts ++ ")")
  | _ => none

/-- TextStyle of a container attribute map: only a text_content_style
attribute that is an array produces a style. -/
def genTextStyle (cg : Cg) (d : Dyn) (attrs : List (String × Expr)) :
    Option String :=
  match attrs.lookup "text_content_style" with
  | some e =>
    match e with
    | .arr elems => genTextStyleFromExpr cg d (.arr elems)
    | _ => none
  | none => none

/-! ## Code generator: statement and function emission -/

/-- Two spaces of indentation per level. -/
def indentStr (n : Nat) : String :=
  String.mk (List.replicate (2 * n) ' ')

/-- Usage-based Dart type of an initializer or assigned expression. -/
def inferType : Expr → String
  | .lit (.bool _) => "bool"
  | .lit (.num (.int _)) => "int"
  | .lit (.num (.float _)) => "double"
  | .lit (.str _) => "String"
  | .arr _ => "List"
  | .obj _ => "Map<String, dynamic>"
  | _ => "dynamic"

/-- Removal of a key from an association list (dict.pop). -/
def removeKey {α : Type} (l : List (String × α)) (k : String) :
    List (String × α) :=
  l.filter (fun p => p.1 ≠ k)

/-- Array shape test of an attribute value. -/
def isArrE : Expr → Bool
  | .arr _ => true
  | _ => false

/-- The value emitted for one mutated attribute: a text_content_style array
goes through the TextStyle conversion (a failed conversion prints the Python
None), everything else through expression emission. -/
def modValStr (cg : Cg) (d : Dyn) (attr : String) (valE : Expr) : String :=
  if attr = "text_content_style" && isArrE valE then
    (genTextStyleFromExpr cg d valE).getD "None"
  else
    genExpr cg d valE

mutual

/-- Statement emission, returning the emitted lines and the updated
generator state (declared locals and the cell-variable map). -/
def genStmt (cg : Cg) (P : Program) (d : Dyn) (indent : Nat) :
    Stmt → List String × Dyn
  | .assign target value =>
    let ind := indentStr indent
    let vstr := genExpr cg d value
    match target with
    | .evar vname =>
      let isGlobal := (P.vars.lookup vname).isSome
      let funcParams := match d.currentFunc with
        | some cf =>
          match P.functions.lookup cf with
          | some fn => fn.params
          | none => []
        | none => []
      if !isGlobal && !funcParams.contains vname && !d.locals.contains vname then
        ([ind ++ inferType value ++ " " ++ vname ++ " = " ++ vstr ++ ";"],
         { d with locals := d.locals ++ [vname] })
      else
        ([ind ++ genExpr cg d (.evar vname) ++ " = " ++ vstr ++ ";"], d)
    | t => ([ind ++ genExpr cg d t ++ " = " ++ vstr ++ ";"], d)
  | .exprStmt e => ([indentStr indent ++ genExpr cg d e ++ ";"], d)
  | .ret v => ([indentStr indent ++ "return " ++ genExpr cg d v ++ ";"], d)
  | .sif cond th el =>
    let ind := indentStr indent
    let cs := genExpr cg d cond
    let (thenLines, d1) := genStmts cg P d (indent + 1) th
    if el.isEmpty then
      ([ind ++ "if (" ++ cs ++ ") \x7b"] ++ thenLines ++ [ind ++ "\x7d"], d1)
    else
      let (elseLines, d2) := genStmts cg P d1 (indent + 1) el
      ([ind ++ "if (" ++ cs ++ ") \x7b"] ++ thenLines ++
        [ind ++ "\x7d else \x7b"] ++ elseLines ++ [ind ++ "\x7d"], d2)
  | .sfor v iter body =>
    let ind := indentStr indent
    let special : Option (String × Int) := match iter with
      | .member (.evar cname) fieldName =>
        if fieldName = "children" then
          (cg.repeated.lookup cname).map (fun t => (cname, t.2.2))
        else none
      | _ => none
    match special with
    | some (cname, count) =>
      let idxVar := v ++ "Idx"
      let prev := d.cellVarMap.lookup v
      let dIn := { d with cellVarMap := updateOne d.cellVarMap v (cname, idxVar) }
      let (bodyLines, dBody) := genStmts cg P dIn (indent + 1) body
      let restored := match prev with
        | none => removeKey dBody.cellVarMap v
        | some pv => updateOne dBody.cellVarMap v pv
      ([ind ++ "for (int " ++ idxVar ++ " = 0; " ++ idxVar ++ " < " ++
          toString count ++ "; " ++ idxVar ++ "++) \x7b"] ++ bodyLines ++
        [ind ++ "\x7d"],
       { dBody with cellVarMap := restored })
    | none =>
      let iterS := genExpr cg d iter
      let (bodyLines, dBody) := genStmts cg P d (indent + 1) body
      ([ind ++ "for (var " ++ v ++ " in " ++ iterS ++ ") \x7b"] ++ bodyLines ++
        [ind ++ "\x7d"], dBody)
  | .modify target attrs =>
    let ind := indentStr indent
    match target with
    | .evar vname =>
      match d.cellVarMap.lookup vname with
      | some (cname, idxVar) =>
        (attrs.map (fun p =>
          ind ++ cname ++ "_" ++ p.1 ++ "[" ++ idxVar ++ "] = " ++
            modValStr cg d p.1 p.2 ++ ";"), d)
      | none =>
        let paramC : Option String := match d.currentFunc with
          | some cf => ((cg.pcm.lookup cf).getD []).lookup vname
          | none => none
        match paramC with
        | some cname =>
          (attrs.map (fun p =>
            ind ++ cname ++ "_" ++ p.1 ++ "[" ++ vname ++ "] = " ++
              modValStr cg d p.1 p.2 ++ ";"), d)
        | none =>
          (attrs.map (fun p =>
            ind ++ "// modify " ++ vname ++ "." ++ p.1 ++ " = " ++
              genExpr cg d p.2 ++ ";"), d)
    | .member o f =>
      match baseName (.member o f) with
      | some cname =>
        if (cg.repeated.lookup cname).isSome then
          let idx := cellIndexFromMember cg (.member o f)
          (attrs.map (fun p =>
            ind ++ cname ++ "_" ++ p.1 ++ "[" ++ idx ++ "] = " ++
              modValStr cg d p.1 p.2 ++ ";"), d)
        else ([], d)
      | none => ([], d)
    | _ => ([], d)

/-- Statement-list emission, threading the generator state in order. -/
def genStmts (cg : Cg) (P : Program) (d : Dyn) (indent : Nat) :
    List Stmt → List String × Dyn
  | [] => ([], d)
  | s :: rest =>
    let (ls, d1) := genStmt cg P d indent s
    let (rs, d2) := genStmts cg P d1 indent rest
    (ls ++ rs, d2)

end

mutual

/-- State-mutation test of one statement: an assignment or an attribute
mutation anywhere in the statement, nested blocks included. -/
def hasStateChanges : Stmt → Bool
  | .assign _ _ => true
  | .modify _ _ => true
  | .sif _ th el => hasStateChangesL th || hasStateChangesL el
  | .sfor _ _ b => hasStateChangesL b
  | _ => false

/-- State-mutation test of a statement list. -/
def hasStateChangesL : List Stmt → Bool
  | [] => false
  | s :: rest => hasStateChanges s || hasStateChangesL rest

end

mutual

/-- Wait-call test of an expression, traversing exactly the child keys the
source traverses: both operands, the unary operand, the member and index
object (not the index expression), the callee, the ternary branches and the
argument lists; array elements, object properties and key-value pair values
are not traversed. -/
def exprHasWait : Expr → Bool
  | .binop _ l r => exprHasWait l || exprHasWait r
  | .unop _ e => exprHasWait e
  | .member o _ => exprHasWait o
  | .index o _ => exprHasWait o
  | .call f args =>
    (match f with
     | .evar n => n = "wait_sec"
     | _ => false) || exprHasWait f || exprsHaveWait args
  | .methodCall o _ args => exprHasWait o || exprsHaveWait args
  | .ternary c t e => exprHasWait c || exprHasWait t || exprHasWait e
  | _ => false

/-- Wait-call test of an expression list. -/
def exprsHaveWait : List Expr → Bool
  | [] => false
  | e :: es => exprHasWait e || exprsHaveWait es

end

mutual

/-- Asynchrony test of one statement: a wait call inside a bare expression
statement, recursing into nested blocks only (return values and assignment
values are not inspected, mirroring the source). -/
def hasAsyncCalls : Stmt → Bool
  | .exprStmt e => exprHasWait e
  | .sif _ th el => hasAsyncCallsL th || hasAsyncCallsL el
  | .sfor _ _ b => hasAsyncCallsL b
  | _ => false

/-- Asynchrony test of a statement list. -/
def hasAsyncCallsL : List Stmt → Bool
  | [] => false
  | s :: rest => hasAsyncCalls s || hasAsyncCallsL rest

end

/-- Function emission: typed parameters (int for parameters bound to a
repeat index), asynchronous marking from the wait-call scan, and the body
wrapped in exactly one setState boundary precisely when the body contains a
state mutation and the function is not marked internal by the call-graph
pass. -/
def genFunction (cg : Cg) (P : Program) (fname : String) (fn : Func) :
    List String :=
  let d0 : Dyn := { currentFunc := some fname }
  let paramStrs := fn.params.map (fun p =>
    match cg.pcm.lookup fname with
    | some m => if (m.lookup p).isSome then "int " ++ p else "dynamic " ++ p
    | none => "dynamic " ++ p)
  let paramStr := String.intercalate ", " paramStrs
  let hasState := hasStateChangesL fn.body
  let isInternal := cg.calledBy.contains fname
  let isAsync := hasAsyncCallsL fn.body
  let funcType := if isAsync then "Future<void>" else "void"
  let header := "  " ++ funcType ++ " " ++ fname ++ "(" ++ paramStr ++ ") " ++
    (if isAsync then "async " else "") ++ "\x7b"
  if hasState && !isInternal then
    [header, "    setState(() \x7b"] ++ (genStmts cg P d0 3 fn.body).1 ++
      ["    \x7d);", "  \x7d"]
  else
    [header] ++ (genStmts cg P d0 2 fn.body).1 ++ ["  \x7d"]

/-! ## Code generator: widget emission

The container-to-container recursion of generate_widget has no depth bound
in the source; a cyclic child graph makes it recurse without terminating.
The embedding indexes the recursion by fuel: a result of none means the
recursion exceeded the given depth, and divergence of the source on an
input is rendered as none for every fuel. -/

/-- Children of a container: names listed in the children attribute array
that resolve in the container mapping (dangling names are silently dropped),
followed by the inline nested containers. -/
def collectChildren (P : Program) (cont : Container) :
    List (String × Container) :=
  let fromAttr := match cont.attributes.lookup "children" with
    | some (.arr elems) =>
      elems.filterMap (fun e =>
        match e with
        | .evar cn => (P.containers.lookup cn).map (fun c => (cn, c))
        | _ => none)
    | _ => []
  fromAttr ++ cont.childrenDef

/-- Python truthiness of a literal value, as used by the scrollable flag. -/
def litTruthy : Lit → Bool
  | .bool b => b
  | .num (.int i) => i ≠ 0
  | .num (.float raw) => raw.data.any (fun c => c.isDigit && c ≠ '0')
  | .str s => !s.isEmpty

/-- Widget kind of a container, by the fixed precedence: an explicit type
attribute mapped through the button and input table, then a truthy literal
scrollable flag, then presence of children, then text content, then the
generic container. -/
def determineWidgetType (cont : Container) : String :=
  let attrs := cont.attributes
  let fromType : Option String :=
    match attrs.lookup "type" with
    | some tv =>
      let typeValue : Option String := match tv with
        | .lit (.str s) => some s
        | .evar n => some n
        | _ => none
      match typeValue with
      | some t =>
        if t = "button" then some "ElevatedButton"
        else if t = "input" then some "TextField"
        else none
      | none => none
    | none => none
  match fromType with
  | some w => w
  | none =>
    let scroll := match attrs.lookup "scrollable" with
      | some (.lit l) => litTruthy l
      | _ => false
    if scroll then "ListView"
    else if (attrs.lookup "children").isSome || !cont.childrenDef.isEmpty then
      "Column"
    else if (attrs.lookup "text_content").isSome then "Text"
    else "Container"

/-- Property lines of a constructor call, comma after every line but the
last, as the emission loops of the source append them. -/
def joinWidgetList (pre : String) : List String → String
  | [] => ""
  | [w] => pre ++ w ++ "\n"
  | w :: rest => pre ++ w ++ ",\n" ++ joinWidgetList pre rest

/-- Margin resolution: a number literal becomes all-sides insets, a
four-element array becomes left-top-right-bottom insets. -/
def resolveMargin (cg : Cg) (d : Dyn) : Expr → Option String
  | .lit (.num v) => some ("EdgeInsets.all(" ++ numValStr v ++ ")")
  | .arr elems =>
    if elems.length = 4 then
      let vals := genExprList cg d elems
      some ("EdgeInsets.fromLTRB(" ++ vals.getD 3 "" ++ ", " ++ vals.getD 0 "" ++
        ", " ++ vals.getD 1 "" ++ ", " ++ vals.getD 2 "" ++ ")")
    else none
  | _ => none

/-- Self-alignment table. -/
def resolveAlignSelf (e : Option Expr) : Option String :=
  match alignVal e with
  | some v =>
    if v = "center" || v = "centre" then some "Alignment.center"
    else if v = "top" then some "Alignment.topCenter"
    else if v = "bottom" then some "Alignment.bottomCenter"
    else if v = "left" then some "Alignment.centerLeft"
    else if v = "right" then some "Alignment.centerRight"
    else none
  | none => none

/-- Box decoration from a shape variable, with the resolved color folded
in; only the sqircle and circle shapes produce a decoration. -/
def buildDecoration (cg : Cg) (d : Dyn) (attrs : List (String × Expr)) :
    Option String :=
  match attrs.lookup "shape" with
  | some (.evar sname) =>
    let border :=
      if sname = "sqircle" then some "borderRadius: BorderRadius.circular(16)"
      else if sname = "circle" then some "shape: BoxShape.circle"
      else none
    match border with
    | some b =>
      let colorPart := match resolveColor cg d (attrs.lookup "color") with
        | some c => "color: " ++ c ++ ", "
        | none => ""
      some ("BoxDecoration(" ++ colorPart ++ b ++ ")")
    | none => none
  | _ => none

/-- Decorator wrappers around a widget, in the fixed order of the source:
visibility first, then a sizing and decoration container, then alignment,
then margin padding. -/
def wrapWithProps (cg : Cg) (d : Dyn) (widgetCode : String) (_name : String)
    (attrs : List (String × Expr)) (indent : Nat) : String :=
  let ind := indentStr indent
  let ind2 := indentStr (indent + 1)
  let w1 := match attrs.lookup "visibility" with
    | some vis =>
      "Visibility(\n" ++ ind2 ++ "visible: " ++ genExpr cg d vis ++ ",\n" ++
        ind2 ++ "child: " ++ widgetCode ++ ",\n" ++ ind ++ ")"
    | none => widgetCode
  let wdim := resolveDimension (attrs.lookup "width")
  let hdim := resolveDimension (attrs.lookup "height")
  let deco := buildDecoration cg d attrs
  let color := if deco.isSome then none
    else resolveColor cg d (attrs.lookup "color")
  let w2 :=
    if wdim.isSome || hdim.isSome || deco.isSome || color.isSome then
      let props := (wdim.map (fun ws => "width: " ++ ws)).toList ++
        (hdim.map (fun hs => "height: " ++ hs)).toList ++
        (match deco with
         | some dc => ["decoration: " ++ dc]
         | none =>
           match color with
           | some c => ["color: " ++ c]
           | none => []) ++
        ["child: " ++ w1]
      "Container(\n" ++ joinWidgetList ind2 props ++ ind ++ ")"
    else w1
  let w3 := match attrs.lookup "align_self" with
    | some a =>
      match resolveAlignSelf (some a) with
      | some alignment =>
        "Align(\n" ++ ind2 ++ "alignment: " ++ alignment ++ ",\n" ++ ind2 ++
          "child: " ++ w2 ++ ",\n" ++ ind ++ ")"
      | none => w2
    | none => w2
  match attrs.lookup "margin" with
  | some m =>
    match resolveMargin cg d m with
    | some mv =>
      "Padding(\n" ++ ind2 ++ "padding: " ++ mv ++ ",\n" ++ ind2 ++
        "child: " ++ w3 ++ ",\n" ++ ind ++ ")"
    | none => w3
  | none => w3

/-- Column alignment pair from the align_children attribute. -/
def columnAlignment (e : Option Expr) : String × String :=
  match alignVal e with
  | some v =>
    if v = "center" || v = "centre" then
      ("MainAxisAlignment.center", "CrossAxisAlignment.center")
    else if v = "left" then
      ("MainAxisAlignment.start", "CrossAxisAlignment.start")
    else if v = "right" then
      ("MainAxisAlignment.start", "CrossAxisAlignment.end")
    else ("MainAxisAlignment.start", "CrossAxisAlignment.start")
  | none => ("MainAxisAlignment.start", "CrossAxisAlignment.start")

/-- Max-height test of a child container, deciding Expanded wrapping and
the column main-axis size. -/
def isMaxHeight (cc : Container) : Bool :=
  match cc.attributes.lookup "height" with
  | some (.evar n) => n = "max"
  | some (.lit (.str s)) => s = "max"
  | _ => false

/-- Text widget emission. -/
def genTextWidget (cg : Cg) (d : Dyn) (name : String) (cont : Container)
    (indent : Nat) : String :=
  let attrs := cont.attributes
  let textStr :=
    if (cg.repeated.lookup name).isSome && memModified cg name "text_content" then
      name ++ "_text_content[index]"
    else
      match attrs.lookup "text_content" with
      | some te => genExpr cg d te
      | none => "\"\""
  let style := genTextStyle cg d attrs
  let widget := "Text(" ++ textStr ++
    (match style with
     | some s => ", style: " ++ s
     | none => "") ++ ")"
  wrapWithProps cg d widget name attrs indent

/-- Button widget emission with its styleFrom parts and the alignment and
margin wraps applied directly (no container wrap). -/
def genButtonWidget (cg : Cg) (d : Dyn) (_name : String) (cont : Container)
    (indent : Nat) : String :=
  let attrs := cont.attributes
  let textStr := match attrs.lookup "text_content" with
    | some te => genExpr cg d te
    | none => "\"Button\""
  let style := genTextStyle cg d attrs
  let textWidget := "Text(" ++ textStr ++
    (match style with
     | some s => ", style: " ++ s
     | none => "") ++ ")"
  let onPress := match attrs.lookup "on_click" with
    | some oc => "() => " ++ genExpr cg d oc
    | none => "null"
  let ind := indentStr indent
  let ind2 := indentStr (indent + 1)
  let sParts1 := match resolveColor cg d (attrs.lookup "color") with
    | some c => ["backgroundColor: " ++ c]
    | none => []
  let sParts2 := sParts1 ++ (match attrs.lookup "shape" with
    | some (.evar sname) =>
      if sname = "sqircle" then
        ["shape: RoundedRectangleBorder(borderRadius: BorderRadius.circular(16))"]
      else if sname = "circle" then ["shape: const CircleBorder()"]
      else []
    | _ => [])
  let wdim := resolveDimension (attrs.lookup "width")
  let hdim := resolveDimension (attrs.lookup "height")
  let sParts := sParts2 ++ (match wdim, hdim with
    | some ws, some hs =>
      ["minimumSize: Size(" ++ ws ++ ", " ++ hs ++ ")",
       "maximumSize: Size(" ++ ws ++ ", " ++ hs ++ ")"]
    | _, _ => [])
  let styleStr := if sParts.isEmpty then none
    else some ("ElevatedButton.styleFrom(" ++ String.intercalate ", " sParts ++ ")")
  let button := "ElevatedButton(\n" ++ ind2 ++ "onPressed: " ++ onPress ++ ",\n" ++
    (match styleStr with
     | some s => ind2 ++ "style: " ++ s ++ ",\n"
     | none => "") ++
    ind2 ++ "child: " ++ textWidget ++ ",\n" ++ ind ++ ")"
  let ba := match attrs.lookup "align_self" with
    | some a =>
      match resolveAlignSelf (some a) with
      | some alignment =>
        "Align(\n" ++ ind2 ++ "alignment: " ++ alignment ++ ",\n" ++ ind2 ++
          "child: " ++ button ++ ",\n" ++ ind ++ ")"
      | none => button
    | none => button
  match attrs.lookup "margin" with
  | some m =>
    match resolveMargin cg d m with
    | some mv =>
      "Padding(\n" ++ ind2 ++ "padding: " ++ mv ++ ",\n" ++ ind2 ++
        "child: " ++ ba ++ ",\n" ++ ind ++ ")"
    | none => ba
  | none => ba

/-- Text field widget emission. -/
def genTextFieldWidget (cg : Cg) (d : Dyn) (_name : String) (cont : Container)
    (indent : Nat) : String :=
  let attrs := cont.attributes
  let ph := match attrs.lookup "placeholder" with
    | some p => genExpr cg d p
    | none => "\"Enter text\""
  let ind := indentStr indent
  let ind2 := indentStr (indent + 1)
  let ind3 := indentStr (indent + 2)
  "TextField(\n" ++ ind2 ++ "decoration: InputDecoration(\n" ++ ind3 ++
    "hintText: " ++ ph ++ ",\n" ++ ind2 ++ "),\n" ++ ind ++ ")"

/-- Tap handler of a repeated cell: a call handler is rewritten to pass the
loop index as the argument. -/
def cellHandler (onClick : Expr) : String :=
  match onClick with
  | .call fn _ =>
    let fname := match fn with
      | .evar n => n
      | _ => "unknown"
    "() => " ++ fname ++ "(index)"
  | _ => "null"

/-- One cell of a repeated container: text resolved from the lifted state
lists when tracked, otherwise from the static template; decoration or
color; and a gesture wrapper when a click handler is present.  Expression
emission inside the cell runs with the repeat-context flag set. -/
def genCellWidget (cg : Cg) (d : Dyn) (name : String)
    (tattrs : List (String × Expr)) (hasState : Bool) (indent : Nat) : String :=
  let d' := { d with inRepeat := true }
  let ind := indentStr indent
  let ind2 := indentStr (indent + 1)
  let inner : Option String :=
    match tattrs.lookup "text_content" with
    | some tc =>
      let textStr :=
        if hasState && memModified cg name "text_content" then
          name ++ "_text_content[index]"
        else genExpr cg d' tc
      let style :=
        if hasState && memModified cg name "text_content_style" then
          some (name ++ "_text_content_style[index]")
        else genTextStyle cg d' tattrs
      let textWidget := "Text(" ++ textStr ++
        (match style with
         | some s => ", style: " ++ s
         | none => "") ++ ")"
      some ("Center(child: Column(\n" ++ ind2 ++
        "mainAxisAlignment: MainAxisAlignment.center,\n" ++ ind2 ++
        "crossAxisAlignment: CrossAxisAlignment.center,\n" ++ ind2 ++
        "mainAxisSize: MainAxisSize.min,\n" ++ ind2 ++
        "children: [" ++ textWidget ++ "],\n" ++ ind ++ "))")
    | none => none
  let deco := buildDecoration cg d' tattrs
  let color := if deco.isSome then none
    else resolveColor cg d' (tattrs.lookup "color")
  let cellProps :=
    (match deco with
     | some dc => ["decoration: " ++ dc]
     | none =>
       match color with
       | some c => ["color: " ++ c]
       | none => []) ++
    (match inner with
     | some innerS => ["child: " ++ innerS]
     | none => [])
  let cell := if cellProps.isEmpty then "Container()"
    else "Container(\n" ++ joinWidgetList ind2 cellProps ++ ind ++ ")"
  match tattrs.lookup "on_click" with
  | some oc =>
    "GestureDetector(\n" ++ ind2 ++ "onTap: " ++ cellHandler oc ++ ",\n" ++
      ind2 ++ "child: " ++ cell ++ ",\n" ++ ind ++ ")"
  | none => cell

/-- The grid dimensions a repeated container expands with: exactly two
integer-literal dimensions of the repeat_by array. -/
def repeatGridDims (cont : Container) : Option (Int × Int) :=
  match cont.attributes.lookup "repeat_by" with
  | some (.arr elems) =>
    match litIntDims elems with
    | [rows, cols] => some (rows, cols)
    | _ => none
  | _ => none

/-- The cell count of the emitted collection builder of a repeated
container: the flattened product of the two grid dimensions. -/
def builderCellCount (cont : Container) : Option Int :=
  (repeatGridDims cont).map (fun p => p.1 * p.2)

/-- Index domain of the emitted collection builder: the target List.generate
construct invokes its builder on the indexes zero through count minus one. -/
def builderIndices (count : Int) : List Int :=
  (List.range count.toNat).map Int.ofNat

mutual

/-- Widget emission dispatch: repeat expansion first, then the widget kind
table.  Fuel bounds the container recursion depth; none models a recursion
that does not terminate at the given depth. -/
def genWidget (cg : Cg) (P : Program) (d : Dyn) :
    Nat → String → Container → Nat → Option String
  | 0, _, _, _ => none
  | fuel + 1, name, cont, indent =>
    if (cont.attributes.lookup "repeat_by").isSome then
      genRepeatedWidget cg P d fuel name cont indent
    else
      let wtype := determineWidgetType cont
      if wtype = "Column" then genColumnWidget cg P d fuel name cont indent
      else if wtype = "Text" then some (genTextWidget cg d name cont indent)
      else if wtype = "ElevatedButton" then
        some (genButtonWidget cg d name cont indent)
      else if wtype = "TextField" then
        some (genTextFieldWidget cg d name cont indent)
      else if wtype = "ListView" then genListViewWidget cg P d fuel name cont indent
      else genContainerWidget cg P d fuel name cont indent

/-- Child widget emission in order. -/
def genChildWidgets (cg : Cg) (P : Program) (d : Dyn) :
    Nat → List (String × Container) → Nat → Option (List String)
  | _, [], _ => some []
  | fuel, (cn, cc) :: rest, childIndent =>
    match genWidget cg P d fuel cn cc childIndent with
    | some cw =>
      match genChildWidgets cg P d fuel rest childIndent with
      | some rs => some (cw :: rs)
      | none => none
    | none => none

/-- Column widget emission: alignment, main-axis size from the presence of
a max-height child, children each wrapped in Expanded when max-height, and
the decorator wraps. -/
def genColumnWidget (cg : Cg) (P : Program) (d : Dyn) :
    Nat → String → Container → Nat → Option String
  | fuel, name, cont, indent =>
    let attrs := cont.attributes
    let children := collectChildren P cont
    if children.isEmpty then some "Container()"
    else
      let ind := indentStr indent
      let ind2 := indentStr (indent + 1)
      let axes := columnAlignment (attrs.lookup "align_children")
      let hasExpanded := children.any (fun p => isMaxHeight p.2)
      let mainSize := if hasExpanded then "MainAxisSize.max" else "MainAxisSize.min"
      match genChildWidgets cg P d fuel children (indent + 1) with
      | some cws =>
        let wrapped := (children.zip cws).map (fun q =>
          if isMaxHeight q.1.2 then
            "Expanded(\n" ++ ind2 ++ "  child: " ++ q.2 ++ ",\n" ++ ind2 ++ ")"
          else q.2)
        let widget := "Column(\n" ++ ind2 ++ "mainAxisAlignment: " ++ axes.1 ++
          ",\n" ++ ind2 ++ "crossAxisAlignment: " ++ axes.2 ++ ",\n" ++ ind2 ++
          "mainAxisSize: " ++ mainSize ++ ",\n" ++ ind2 ++ "children: [\n" ++
          joinWidgetList (ind2 ++ "  ") wrapped ++ ind2 ++ "],\n" ++ ind ++ ")"
        some (wrapWithProps cg d widget name attrs indent)
      | none => none

/-- List view emission. -/
def genListViewWidget (cg : Cg) (P : Program) (d : Dyn) :
    Nat → String → Container → Nat → Option String
  | fuel, _, cont, indent =>
    let children := collectChildren P cont
    if children.isEmpty then some "ListView()"
    else
      let ind := indentStr indent
      let ind2 := indentStr (indent + 1)
      match genChildWidgets cg P d fuel children (indent + 2) with
      | some cws =>
        some ("ListView(\n" ++ ind2 ++ "children: [\n" ++
          joinWidgetList (ind2 ++ "  ") cws ++ ind2 ++ "],\n" ++ ind ++ ")")
      | none => none

/-- Generic container emission: sizing, decoration or color, and only the
first child. -/
def genContainerWidget (cg : Cg) (P : Program) (d : Dyn) :
    Nat → String → Container → Nat → Option String
  | fuel, _, cont, indent =>
    let attrs := cont.attributes
    let children := collectChildren P cont
    let ind := indentStr indent
    let ind2 := indentStr (indent + 1)
    let wdim := resolveDimension (attrs.lookup "width")
    let hdim := resolveDimension (attrs.lookup "height")
    let deco := buildDecoration cg d attrs
    let color := if deco.isSome then none
      else resolveColor cg d (attrs.lookup "color")
    let base := (wdim.map (fun ws => "width: " ++ ws)).toList ++
      (hdim.map (fun hs => "height: " ++ hs)).toList ++
      (match deco with
       | some dc => ["decoration: " ++ dc]
       | none =>
         match color with
         | some c => ["color: " ++ c]
         | none => [])
    match children with
    | (cn, cc) :: _ =>
      match genWidget cg P d fuel cn cc (indent + 1) with
      | some cw =>
        some ("Container(\n" ++ joinWidgetList ind2 (base ++ ["child: " ++ cw]) ++
          ind ++ ")")
      | none => none
    | [] =>
      if base.isEmpty then some "Container()"
      else some ("Container(\n" ++ joinWidgetList ind2 base ++ ind ++ ")")

/-- Repeated container emission: a grid collection builder over the
flattened count, with the per-cell template; a repeat_by that is not a
two-integer-literal array falls back to the generic container. -/
def genRepeatedWidget (cg : Cg) (P : Program) (d : Dyn) :
    Nat → String → Container → Nat → Option String
  | fuel, name, cont, indent =>
    match repeatGridDims cont with
    | some (rows, cols) =>
      let count := rows * cols
      let tattrs := cont.attributes.filter (fun p => p.1 ≠ "repeat_by")
      let hasState := (cg.modified.lookup name).isSome
      let ind := indentStr indent
      let ind2 := indentStr (indent + 1)
      let ind3 := indentStr (indent + 2)
      some ("GridView.count(\n" ++ ind2 ++ "crossAxisCount: " ++ toString cols ++
        ",\n" ++ ind2 ++ "shrinkWrap: true,\n" ++ ind2 ++
        "physics: const NeverScrollableScrollPhysics(),\n" ++ ind2 ++
        "childAspectRatio: 1.0,\n" ++ ind2 ++ "children: List.generate(" ++
        toString count ++ ", (index) \x7b\n" ++ ind3 ++ "return " ++
        genCellWidget cg d name tattrs hasState (indent + 3) ++ ";\n" ++ ind2 ++
        "\x7d),\n" ++ ind ++ ")")
    | none => genContainerWidget cg P d fuel name cont indent

end

/-! ## Code generator: the stateful application widget and the pipeline -/

/-- Head lines of the stateful application widget class. -/
def appWidgetHead : List String :=
  ["class ViApp extends StatefulWidget \x7b",
   "  const ViApp(\x7bsuper.key\x7d);",
   "",
   "  @override",
   "  State<ViApp> createState() => _ViAppState();",
   "\x7d",
   "",
   "class _ViAppState extends State<ViApp> \x7b"]

/-- The stateful class: global state fields, the lifted state lists, all
functions, and the build method around the main container widget.  A main
container name absent from the container mapping is a key error in the
source; it is rendered as none. -/
def generateAppWidget (cg : Cg) (P : Program) (fuel : Nat) :
    Option (List String) :=
  let varLines := P.vars.map (fun p =>
    "  " ++ inferType p.2.value ++ " " ++ p.1 ++ " = " ++
      genExpr cg {} p.2.value ++ ";")
  let varSect := varLines ++ (if P.vars.isEmpty then [] else [""])
  let funcSect := P.functions.foldl
    (fun acc p => acc ++ genFunction cg P p.1 p.2 ++ [""]) []
  let buildHead := ["  @override", "  Widget build(BuildContext context) \x7b"]
  let bodyOpt : Option (List String) := match P.mainContainer with
    | some mn =>
      match P.containers.lookup mn with
      | some mc =>
        match genWidget cg P {} fuel mn mc 2 with
        | some w =>
          some ["    return Scaffold(",
                "      body: SafeArea(",
                "        child: " ++ w ++ ",",
                "      ),",
                "    );"]
        | none => none
      | none => none
    | none =>
      some ["    return Scaffold(body: Center(child: Text('No main container')));"]
  match bodyOpt with
  | some bodyLines =>
    some (appWidgetHead ++ varSect ++ stateFieldLines cg ++ funcSect ++
      buildHead ++ bodyLines ++ ["  \x7d", "\x7d"])
  | none => none

/-- Preamble of the generated application source. -/
def appPreamble : List String :=
  ["import 'package:flutter/material.dart';",
   "import 'dart:math';",
   "",
   "void main() \x7b",
   "  runApp(const MaterialApp(",
   "    home: ViApp(),",
   "    debugShowCheckedModeBanner: false,",
   "  ));",
   "\x7d",
   ""]

/-- The code-generation pipeline on a Program, as the compiler driver runs
it: the analysis passes of the generator constructor followed by full-app
emission.  No validation pass exists between parsing and code generation in
the source; every Program that reaches the driver is analyzed and emitted. -/
def generateFullApp (P : Program) (fuel : Nat) : Option String :=
  let cg := analyze P
  (generateAppWidget cg P fuel).map
    (fun ls => String.intercalate "\n" (appPreamble ++ ls))

/-! ## Text-binding extraction (extract_text_bindings)

The binding pattern of the source: an interpolation group is an opening
brace not preceded by another opening brace, one or more characters that are
not braces, and a closing brace not followed by another closing brace; the
binding is the root of the group content before any dot or bracket access,
stripped of whitespace, deduplicated in order. -/

/-- Scan for binding groups, tracking the previous character for the
negative lookbehind; a failed match resumes one character further on. -/
def findBindGroupsGo : Nat → Option Char → List Char → List (List Char)
  | 0, _, _ => []
  | _ + 1, _, [] => []
  | fuel + 1, prev, c :: rest =>
    if c = '\x7b' then
      if prev = some '\x7b' then findBindGroupsGo fuel (some c) rest
      else
        let content := rest.takeWhile (fun x => x ≠ '\x7b' && x ≠ '\x7d')
        match rest.dropWhile (fun x => x ≠ '\x7b' && x ≠ '\x7d') with
        | '\x7d' :: rest' =>
          if !content.isEmpty && rest'.head? ≠ some '\x7d' then
            content :: findBindGroupsGo fuel (some '\x7d') rest'
          else findBindGroupsGo fuel (some c) rest
        | _ => findBindGroupsGo fuel (some c) rest
    else findBindGroupsGo fuel (some c) rest

/-- The root identifier of a binding group: the content before the first
dot, then before the first bracket, stripped. -/
def bindingRoot (cs : List Char) : String :=
  String.mk (pyStrip ((cs.takeWhile (fun c => c ≠ '.')).takeWhile (fun c => c ≠ '[')))

/-- Variable bindings of a text literal, in order without duplicates. -/
def extractTextBindings (s : String) : List String :=
  (findBindGroupsGo (s.data.length + 1) none s.data).foldl
    (fun acc m =>
      let root := bindingRoot m
      if root ∈ acc then acc else acc ++ [root])
    []

/-! ## Specification-side predicates

These definitions render the quantifiers of the specification sentences; the
analysis and emission definitions above are the implementation side. -/

/-- Occurrence of a statement inside another statement at any nesting depth
(through then, else and loop-body blocks). -/
inductive Occ : Stmt → Stmt → Prop
  | refl (s : Stmt) : Occ s s
  | inThen {s u : Stmt} {c : Expr} {th el : List Stmt} :
      u ∈ th → Occ s u → Occ s (.sif c th el)
  | inElse {s u : Stmt} {c : Expr} {th el : List Stmt} :
      u ∈ el → Occ s u → Occ s (.sif c th el)
  | inFor {s u : Stmt} {v : String} {it : Expr} {b : List Stmt} :
      u ∈ b → Occ s u → Occ s (.sfor v it b)

/-- Occurrence of a statement anywhere in a statement list. -/
def OccIn (s : Stmt) (body : List Stmt) : Prop :=
  ∃ t ∈ body, Occ s t

/-- The three target forms of the state-lift specification: an
attribute-mutation statement targets container c and attribute A directly by
the container name (an unbound variable equal to c), through a click-handler
parameter bound to c, or through a member-access chain rooted at c. -/
inductive TargetsVia (pcm : List (String × String)) (c A : String) : Stmt → Prop
  | direct (v : String) (attrs : List (String × Expr)) :
      pcm.lookup v = none → v = c → A ∈ attrs.map Prod.fst →
      TargetsVia pcm c A (.modify (.evar v) attrs)
  | viaParam (v : String) (attrs : List (String × Expr)) :
      pcm.lookup v = some c → A ∈ attrs.map Prod.fst →
      TargetsVia pcm c A (.modify (.evar v) attrs)
  | viaMember (obj : Expr) (f : String) (attrs : List (String × Expr)) :
      baseName (.member obj f) = some c → A ∈ attrs.map Prod.fst →
      TargetsVia pcm c A (.modify (.member obj f) attrs)

mutual

/-- Specification-side test: the statement is a bare expression statement
whose expression is a call of the named function, at any nesting depth. -/
def stmtHasExprCallOf (g : String) : Stmt → Bool
  | .exprStmt e =>
    match e with
    | .call (.evar n) _ => n = g
    | _ => false
  | .sif _ th el => stmtsHaveExprCallOf g th || stmtsHaveExprCallOf g el
  | .sfor _ _ b => stmtsHaveExprCallOf g b
  | _ => false

/-- List version of the bare-call test. -/
def stmtsHaveExprCallOf (g : String) : List Stmt → Bool
  | [] => false
  | s :: rest => stmtHasExprCallOf g s || stmtsHaveExprCallOf g rest

end

/-- Specification-side reading of the call-graph condition: some different
user function contains a bare expression-statement call of g. -/
def SpecCalledB (P : Program) (g : String) : Bool :=
  P.functions.any (fun p => p.1 ≠ g && stmtsHaveExprCallOf g p.2.body)

mutual

/-- Specification-side test of a call of the named function anywhere inside
an expression, traversing every child. -/
def exprCallsFn (g : String) : Expr → Bool
  | .call fn args =>
    (match fn with
     | .evar n => n = g
     | _ => false) || exprCallsFn g fn || exprsCallFn g args
  | .binop _ l r => exprCallsFn g l || exprCallsFn g r
  | .unop _ e => exprCallsFn g e
  | .member o _ => exprCallsFn g o
  | .index o i => exprCallsFn g o || exprCallsFn g i
  | .methodCall o _ args => exprCallsFn g o || exprsCallFn g args
  | .ternary c t e => exprCallsFn g c || exprCallsFn g t || exprCallsFn g e
  | .arr elems => exprsCallFn g elems
  | .obj props => exprPropsCallFn g props
  | .kvpair _ v => exprCallsFn g v
  | _ => false

/-- List version of the anywhere-call test. -/
def exprsCallFn (g : String) : List Expr → Bool
  | [] => false
  | e :: es => exprCallsFn g e || exprsCallFn g es

/-- Property-list version of the anywhere-call test. -/
def exprPropsCallFn (g : String) : List (String × Expr) → Bool
  | [] => false
  | (_, v) :: ps => exprCallsFn g v || exprPropsCallFn g ps

end

mutual

/-- Specification-side test of a call of the named function anywhere inside
a statement. -/
def stmtCallsFn (g : String) : Stmt → Bool
  | .assign t v => exprCallsFn g t || exprCallsFn g v
  | .ret v => exprCallsFn g v
  | .exprStmt e => exprCallsFn g e
  | .sif c th el => exprCallsFn g c || stmtsCallFn g th || stmtsCallFn g el
  | .sfor _ it b => exprCallsFn g it || stmtsCallFn g b
  | .modify t attrs => exprCallsFn g t || exprPropsCallFn g attrs

/-- List version of the anywhere-call statement test. -/
def stmtsCallFn (g : String) : List Stmt → Bool
  | [] => false
  | s :: rest => stmtCallsFn g s || stmtsCallFn g rest

end

/-- First-defined choice of two options (Python dict-style precedence). -/
def firstSome {α : Type} : Option α → Option α → Option α
  | some x, _ => some x
  | none, b => b

/-- The reactivity-boundary opening line emitted by function emission. -/
def bLine : String := "    setState(() \x7b"

/-- Names of the resolved children of a container. -/
def childNames (P : Program) (cont : Container) : List String :=
  (collectChildren P cont).map Prod.fst

/-! ## Concrete example programs used by the counterexamples and witnesses -/

/-- The empty program. -/
def emptyProg : Program :=
  { imports := [], vars := [], functions := [], containers := [],
    mainContainer := none }

/-- A container with a three-element literal integer repeat_by and a
function mutating one of its attributes. -/
def c1Prog : Program :=
  { imports := []
    vars := []
    functions := [("f", ⟨[],
      [.modify (.evar "g") [("text_content", .lit (.str "hi"))]]⟩)]
    containers := [("g", .mk
      [("repeat_by", .arr
        [.lit (.num (.int 2)), .lit (.num (.int 3)), .lit (.num (.int 4))])] [])]
    mainContainer := none }

/-- A two-by-three grid with a mutation of one attribute, used by the
amended state-lift and grid-index witnesses. -/
def c2Prog : Program :=
  { imports := []
    vars := []
    functions := [("f", ⟨[],
      [.modify (.member (.evar "grid") "X1Y1") [("text_content", .lit (.str "z"))]]⟩)]
    containers := [("grid", .mk
      [("repeat_by", .arr [.lit (.num (.int 2)), .lit (.num (.int 3))])] [])]
    mainContainer := none }

/-- Two functions: f calls g inside an assignment value, g mutates a global
variable.  The call-graph pass only sees bare expression-statement calls, so
g is not marked internal. -/
def c3Prog : Program :=
  { imports := []
    vars := [("y", ⟨.lit (.num (.int 0))⟩)]
    functions :=
      [("f", ⟨[], [.assign (.evar "x") (.call (.evar "g") [])]⟩),
       ("g", ⟨[], [.assign (.evar "y") (.lit (.num (.int 1)))]⟩)]
    containers := []
    mainContainer := none }

/-- A program with one never-called mutating function, used by the amended
reactivity-boundary witness. -/
def c3wProg : Program :=
  { imports := []
    vars := [("z", ⟨.lit (.num (.int 0))⟩)]
    functions := [("h", ⟨[], [.assign (.evar "z") (.lit (.num (.int 1)))]⟩)]
    containers := []
    mainContainer := none }

/-- An imported module defining x as two and nothing else. -/
def c4ModA : Program :=
  { imports := []
    vars := [("x", ⟨.lit (.num (.int 2))⟩)]
    functions := []
    containers := []
    mainContainer := none }

/-- An importing program declaring its own x as one and importing the
module that also defines x. -/
def c4Prog : Program :=
  { imports := [⟨"a.vi", .star⟩]
    vars := [("x", ⟨.lit (.num (.int 1))⟩)]
    functions := []
    containers := []
    mainContainer := none }

/-- A loader that resolves the single module path. -/
def c4Env : ImportEnv :=
  ⟨fun _ src => if src = "a.vi" then some (c4ModA, "") else none⟩

/-- An import naming an item the resolved module does not define. -/
def c5Prog : Program :=
  { imports := [⟨"a.vi", .names ["helper"]⟩]
    vars := []
    functions := []
    containers := []
    mainContainer := none }

/-- Cyclic child containers A and B. -/
def c6ContA : Container := .mk [("children", .arr [.evar "B"])] []

/-- Second half of the cycle. -/
def c6ContB : Container := .mk [("children", .arr [.evar "A"])] []

/-- A program whose child graph has the cycle A-B off the main path; the
main container is a plain text element. -/
def c6ProgSide : Program :=
  { imports := []
    vars := []
    functions := []
    containers := [("A", c6ContA), ("B", c6ContB),
      ("M", .mk [("text_content", .lit (.str "hi"))] [])]
    mainContainer := some "M" }

/-- A program whose main container lies on the child cycle. -/
def c6ProgMain : Program :=
  { imports := []
    vars := []
    functions := []
    containers := [("A", c6ContA), ("B", c6ContB)]
    mainContainer := some "A" }

/-! ## Lemma library: association lists and options -/

theorem lookup_cons {α : Type} (p : String × α) (l : List (String × α))
    (k : String) :
    (p :: l).lookup k = if k = p.1 then some p.2 else l.lookup k := by
  by_cases h : k = p.1
  · have hb : (k == p.1) = true := beq_iff_eq.mpr h
    simp [List.lookup, hb, h]
  · have hb : (k == p.1) = false := beq_eq_false_iff_ne.mpr h
    simp [List.lookup, hb, h]

theorem lookup_nil {α : Type} (k : String) :
    ([] : List (String × α)).lookup k = none := rfl

theorem updateOne_lookup {α : Type} (m : List (String × α)) (k : String)
    (v : α) (k' : String) :
    (updateOne m k v).lookup k' = if k' = k then some v else m.lookup k' := by
  induction m with
  | nil =>
    show [(k, v)].lookup k' = _
    rw [lookup_cons]
  | cons p rest ih =>
    by_cases hp : p.1 = k
    · simp only [updateOne, if_pos hp]
      rw [lookup_cons, lookup_cons]
      by_cases h : k' = k
      · simp [h]
      · have h2 : ¬ k' = p.1 := by rw [hp]; exact h
        simp [h, h2]
    · simp only [updateOne, if_neg hp]
      rw [lookup_cons, lookup_cons, ih]
      by_cases h1 : k' = p.1
      · have h2 : ¬ k' = k := fun hk => hp (h1 ▸ hk)
        simp [h1, h2, hp]
      · simp [h1]

theorem lookup_append {α : Type} (l₁ l₂ : List (String × α)) (k : String) :
    (l₁ ++ l₂).lookup k = firstSome (l₁.lookup k) (l₂.lookup k) := by
  induction l₁ with
  | nil => rw [List.nil_append, lookup_nil]; rfl
  | cons p rest ih =>
    rw [List.cons_append, lookup_cons, lookup_cons]
    by_cases h : k = p.1
    · simp [h, firstSome]
    · simp [h, ih]

theorem firstSome_assoc {α : Type} (a b c : Option α) :
    firstSome (firstSome a b) c = firstSome a (firstSome b c) := by
  cases a <;> simp [firstSome]

theorem firstSome_none {α : Type} (a : Option α) : firstSome a none = a := by
  cases a <;> simp [firstSome]

theorem dictUpdate_lookup {α : Type} (b o : List (String × α)) (k : String) :
    (dictUpdate b o).lookup k = firstSome (o.reverse.lookup k) (b.lookup k) := by
  induction o generalizing b with
  | nil => simp [dictUpdate, firstSome]
  | cons p rest ih =>
    have step : dictUpdate b (p :: rest) = dictUpdate (updateOne b p.1 p.2) rest := by
      simp [dictUpdate]
    rw [step, ih, List.reverse_cons, lookup_append, firstSome_assoc]
    congr 1
    rw [updateOne_lookup, lookup_cons, lookup_nil]
    by_cases h : k = p.1
    · simp [h, firstSome]
    · simp [h, firstSome]

theorem lookup_eq_none_of_not_mem_keys {α : Type} (l : List (String × α))
    (k : String) (h : k ∉ l.map Prod.fst) : l.lookup k = none := by
  induction l with
  | nil => rfl
  | cons p rest ih =>
    simp only [List.map_cons, List.mem_cons] at h
    push_neg at h
    rw [lookup_cons, if_neg h.1, ih h.2]

theorem reverse_lookup_of_nodup {α : Type} (l : List (String × α)) (k : String)
    (h : (l.map Prod.fst).Nodup) : l.reverse.lookup k = l.lookup k := by
  induction l with
  | nil => rfl
  | cons p rest ih =>
    simp only [List.map_cons, List.nodup_cons] at h
    rw [List.reverse_cons, lookup_append, ih h.2, lookup_cons, lookup_cons,
      lookup_nil]
    by_cases hk : k = p.1
    · subst hk
      rw [lookup_eq_none_of_not_mem_keys rest _ h.1]
      simp [firstSome]
    · simp only [hk, if_false]
      rw [firstSome_none]

theorem mem_of_lookup {α : Type} (l : List (String × α)) (k : String) (v : α)
    (h : l.lookup k = some v) : (k, v) ∈ l := by
  induction l with
  | nil => simp [lookup_nil] at h
  | cons p rest ih =>
    rw [lookup_cons] at h
    by_cases hk : k = p.1
    · rw [if_pos hk] at h
      injection h with h2
      subst hk
      subst h2
      simp
    · rw [if_neg hk] at h
      exact List.mem_cons_of_mem _ (ih h)

theorem mem_insertIfAbsent (l : List String) (x y : String) :
    y ∈ insertIfAbsent l x ↔ y ∈ l ∨ y = x := by
  by_cases h : x ∈ l
  · simp only [insertIfAbsent, h, if_true]
    constructor
    · exact Or.inl
    · rintro (hy | rfl)
      · exact hy
      · exact h
  · simp [insertIfAbsent, h]

theorem mem_insertIfAbsent_of_mem (l : List String) (x y : String)
    (h : y ∈ l) : y ∈ insertIfAbsent l x :=
  (mem_insertIfAbsent l x y).mpr (Or.inl h)

/-! ## C9: comment-stripping idempotence -/

theorem subCommentsGo_of_no_marker :
    ∀ (fuel : Nat) (cs : List Char), cs.length < fuel →
      hasSub cs ['<', '#'] = false → subCommentsGo fuel cs = cs := by
  intro fuel
  induction fuel with
  | zero => intro cs h _; omega
  | succ f ih =>
    intro cs hlen hsub
    cases cs with
    | nil => rfl
    | cons c rest =>
      rw [hasSub] at hsub
      simp only [Bool.or_eq_false_iff] at hsub
      obtain ⟨hpre, hrest⟩ := hsub
      have hcond : ¬ (c = '<' ∧ rest.head? = some '#') := by
        rintro ⟨rfl, hh⟩
        cases rest with
        | nil => simp at hh
        | cons c2 r2 =>
          simp only [List.head?_cons, Option.some.injEq] at hh
          subst hh
          simp [List.isPrefixOf] at hpre
      have hlen' : rest.length < f := by
        simp only [List.length_cons] at hlen; omega
      simp only [subCommentsGo]
      have hfalse : ¬ ((decide (c = '<') && decide (rest.head? = some '#')) = true) := by
        simpa using hcond
      rw [if_neg hfalse, ih rest hlen' hrest]

theorem splitLines_ne_nil (cs : List Char) : splitLines cs ≠ [] := by
  cases cs with
  | nil => simp [splitLines]
  | cons c rest =>
    simp only [splitLines]
    by_cases h : c = '\n'
    · simp [h]
    · rw [if_neg h]
      cases hsp : splitLines rest <;> simp

theorem joinLines_splitLines (cs : List Char) : joinLines (splitLines cs) = cs := by
  induction cs with
  | nil => rfl
  | cons c rest ih =>
    by_cases h : c = '\n'
    · subst h
      simp only [splitLines, if_pos rfl]
      cases hsp : splitLines rest with
      | nil => exact absurd hsp (splitLines_ne_nil rest)
      | cons l ls =>
        rw [hsp] at ih
        calc joinLines ([] :: l :: ls) = '\n' :: joinLines (l :: ls) := rfl
          _ = '\n' :: rest := by rw [ih]
    · simp only [splitLines]
      rw [if_neg h]
      cases hsp : splitLines rest with
      | nil => exact absurd hsp (splitLines_ne_nil rest)
      | cons l ls =>
        rw [hsp] at ih
        cases ls with
        | nil => exact congrArg (fun x => c :: x) ih
        | cons l2 ls2 =>
          show c :: joinLines (l :: l2 :: ls2) = c :: rest
          rw [ih]

theorem splitLines_head_prefix (cs : List Char) :
    ∃ l ls, splitLines cs = l :: ls ∧ l <+: cs := by
  induction cs with
  | nil => exact ⟨[], [], rfl, List.nil_prefix⟩
  | cons c rest ih =>
    by_cases h : c = '\n'
    · exact ⟨[], splitLines rest, by simp [splitLines, h], List.nil_prefix⟩
    · obtain ⟨l, ls, heq, hpre⟩ := ih
      refine ⟨c :: l, ls, by simp [splitLines, h, heq], ?_⟩
      obtain ⟨t, ht⟩ := hpre
      exact ⟨t, by simp [← ht]⟩

theorem splitLines_cons_newline (rest : List Char) :
    splitLines ('\n' :: rest) = [] :: splitLines rest := by
  simp [splitLines]

theorem splitLines_cons_other (c : Char) (rest : List Char) (h : ¬ c = '\n')
    (l₀ : List Char) (ls₀ : List (List Char))
    (heq : splitLines rest = l₀ :: ls₀) :
    splitLines (c :: rest) = (c :: l₀) :: ls₀ := by
  simp only [splitLines]
  rw [if_neg h, heq]

theorem splitLines_no_marker :
    ∀ cs : List Char, hasSub cs ['<', '#'] = false →
      ∀ l ∈ splitLines cs, hasSub l ['<', '#'] = false := by
  intro cs
  induction cs with
  | nil =>
    intro _ l hl
    simp only [splitLines, List.mem_singleton] at hl
    subst hl; decide
  | cons c rest ih =>
    intro h l hl
    rw [hasSub] at h
    simp only [Bool.or_eq_false_iff] at h
    obtain ⟨hpre, hrest⟩ := h
    by_cases hc : c = '\n'
    · subst hc
      rw [splitLines_cons_newline] at hl
      simp only [List.mem_cons] at hl
      rcases hl with rfl | hl
      · decide
      · exact ih hrest l hl
    · obtain ⟨l₀, ls₀, heq, hpre₀⟩ := splitLines_head_prefix rest
      rw [splitLines_cons_other c rest hc l₀ ls₀ heq] at hl
      simp only [List.mem_cons] at hl
      rcases hl with rfl | hl
      · rw [hasSub]
        simp only [Bool.or_eq_false_iff]
        refine ⟨?_, ih hrest l₀ (by rw [heq]; exact List.mem_cons_self _ _)⟩
        by_contra hx
        simp only [Bool.not_eq_false] at hx
        have h1 : ['<', '#'] <+: (c :: l₀) := List.isPrefixOf_iff_prefix.mp hx
        have h2 : (c :: l₀) <+: (c :: rest) := by
          obtain ⟨t, ht⟩ := hpre₀
          exact ⟨t, by simp [← ht]⟩
        have h3 : ['<', '#'] <+: (c :: rest) := h1.trans h2
        rw [← List.isPrefixOf_iff_prefix] at h3
        rw [h3] at hpre
        simp at hpre
      · exact ih hrest l (by rw [heq]; exact List.mem_cons_of_mem _ hl)

theorem stripText_of_no_marker :
    ∀ lines : List (List Char),
      (∀ l ∈ lines, hasSub l ['<', '#'] = false) →
      stripText lines false = lines := by
  intro lines
  induction lines with
  | nil => intro _; rfl
  | cons line rest ih =>
    intro h
    have hline := h line (List.mem_cons_self _ _)
    simp only [stripText, hline, Bool.false_and, Bool.false_eq_true, if_false]
    rw [ih (fun l hl => h l (List.mem_cons_of_mem _ hl))]
    have : subComments line = line :=
      subCommentsGo_of_no_marker _ _ (Nat.lt_succ_self _) hline
    rw [this]

theorem removeComments_of_no_marker (s : String)
    (h : hasSub s.data ['<', '#'] = false) : removeComments s = s := by
  unfold removeComments removeCommentsL
  rw [stripText_of_no_marker _ (splitLines_no_marker _ h), joinLines_splitLines]

/-- C9 (corrected): comment stripping is not idempotent in general.  The
first pass on the text below removes the closed inline comment of the first
line but leaves its residual unclosed open marker, which the second pass
recognizes as a multi-line comment and removes together with the second
line. -/
theorem comment_strip_not_idempotent :
    removeComments (removeComments "x <# a #> <# b\ny #>") ≠
      removeComments "x <# a #> <# b\ny #>" := by
  decide

/-- C9 (amended): comment stripping is a no-op on any text containing no
comment-open marker; consequently it is idempotent on exactly those inputs
whose first pass leaves no residual open marker. -/
theorem comment_strip_idempotent_without_residual_opener :
    (∀ s : String, hasSub s.data ['<', '#'] = false → removeComments s = s) ∧
    (∀ s : String, hasSub (removeComments s).data ['<', '#'] = false →
      removeComments (removeComments s) = removeComments s) :=
  ⟨removeComments_of_no_marker,
   fun s h => removeComments_of_no_marker (removeComments s) h⟩

/-- Witness for the amended idempotence theorem at concrete inputs. -/
theorem comment_strip_idempotent_witness :
    removeComments (removeComments "a <# b #> c") = removeComments "a <# b #> c" ∧
    removeComments "hello\nworld" = "hello\nworld" :=
  ⟨comment_strip_idempotent_without_residual_opener.2 "a <# b #> c" (by decide),
   comment_strip_idempotent_without_residual_opener.1 "hello\nworld" (by decide)⟩

/-! ## C7: unary-minus folding in the lexer -/

/-- C7 (corrected): the lexer folds the minus into the following numeric
literal even when an operand, here the identifier a, immediately precedes
it: the source a-1 tokenizes to an identifier and the number minus one with
no MINUS operator token, refuting the preceding-context rule of the claim. -/
theorem lexer_minus_after_operand_folded :
    tokenize "a-1" =
      [⟨"IDENTIFIER", .vstr "a"⟩, ⟨"NUMBER", .vnum (.int (-1))⟩,
       ⟨"NEWLINE", .vnone⟩, ⟨"EOF", .vnone⟩] := by
  decide

/-- C7 (amended): the scanner folds a minus into a numeric literal exactly
when the character immediately after it is a digit, regardless of what
precedes; otherwise the minus becomes a MINUS operator token. -/
theorem lexer_minus_folding_depends_only_on_next_char :
    (∀ (fuel : Nat) (c : Char) (rest : List Char), c.isDigit = true →
      scanChars (fuel + 1) ('-' :: c :: rest) =
        numToken ('-' :: (c :: rest).takeWhile numChar) ::
          scanChars fuel ((c :: rest).dropWhile numChar)) ∧
    (∀ (fuel : Nat) (rest : List Char),
      (∀ d, rest.head? = some d → d.isDigit = false) →
      scanChars (fuel + 1) ('-' :: rest) =
        ⟨"MINUS", .vstr "-"⟩ :: scanChars fuel rest) := by
  constructor
  · intro fuel c rest hd
    simp [scanChars, hd]
  · intro fuel rest hnd
    cases rest with
    | nil => simp [scanChars, singleCharOp]
    | cons d r2 =>
      have hd := hnd d rfl
      simp [scanChars, hd, twoCharOp, singleCharOp]

/-- Witness for the amended minus-folding theorem at concrete inputs. -/
theorem lexer_minus_folding_witness :
    scanChars 4 ['-', '3', 'x'] =
      numToken ('-' :: (['3', 'x'].takeWhile numChar)) ::
        scanChars 3 (['3', 'x'].dropWhile numChar) ∧
    scanChars 4 ['-', 'x'] = ⟨"MINUS", .vstr "-"⟩ :: scanChars 3 ['x'] :=
  ⟨lexer_minus_folding_depends_only_on_next_char.1 3 '3' ['x'] (by decide),
   lexer_minus_folding_depends_only_on_next_char.2 3 ['x'] (by
     intro d hd
     simp only [List.head?_cons, Option.some.injEq] at hd
     subst hd
     decide)⟩

/-! ## C4, C5, C10: import resolution -/

/-- The modules an import list resolves to under an environment, dropping
failed fetches. -/
def fetchedModules (env : ImportEnv) (base : String)
    (imps : List ImportDecl) : List Program :=
  imps.filterMap (fun imp => (env.fetch base imp.source).map Prod.fst)

theorem findSome?_append {α β : Type} (l₁ l₂ : List α) (f : α → Option β) :
    (l₁ ++ l₂).findSome? f = firstSome (l₁.findSome? f) (l₂.findSome? f) := by
  induction l₁ with
  | nil => simp [firstSome]
  | cons a rest ih =>
    rw [List.cons_append, List.findSome?_cons, List.findSome?_cons]
    cases f a <;> simp [firstSome, ih]

theorem findSome?_singleton {α β : Type} (a : α) (f : α → Option β) :
    [a].findSome? f = f a := by
  rw [List.findSome?_cons]
  cases f a <;> simp

theorem resolveImportsCore_of_no_imports (env : ImportEnv) (fuel : Nat)
    (m : Program) (base : String) (h : m.imports = []) :
    resolveImportsCore env fuel m base = m := by
  cases fuel with
  | zero =>
    cases m
    simp only at h
    subst h
    rfl
  | succ f =>
    have : m.imports.isEmpty = true := by rw [h]; rfl
    simp [resolveImportsCore, this]

theorem importStep_skip (env : ImportEnv) (rs : Program → String → Program)
    (base : String) (acc : Program) (imp : ImportDecl)
    (hf : env.fetch base imp.source = none) :
    importStep env rs base acc imp = acc := by
  simp [importStep, hf]

theorem importStep_star (env : ImportEnv) (rs : Program → String → Program)
    (base : String) (acc : Program) (imp : ImportDecl) (m : Program)
    (nb : String) (hf : env.fetch base imp.source = some (m, nb))
    (hi : imp.items = .star) :
    importStep env rs base acc imp = mergeWildcard acc (rs m nb) := by
  simp [importStep, hf, hi]

theorem importStep_names (env : ImportEnv) (rs : Program → String → Program)
    (base : String) (acc : Program) (imp : ImportDecl) (m : Program)
    (nb : String) (items : List String)
    (hf : env.fetch base imp.source = some (m, nb))
    (hi : imp.items = .names items) :
    importStep env rs base acc imp = mergeNamed acc (rs m nb) items := by
  simp [importStep, hf, hi]

theorem mergeNamed_id (acc m : Program) (items : List String)
    (h : ∀ item ∈ items, m.vars.lookup item = none ∧
      m.functions.lookup item = none ∧ m.containers.lookup item = none) :
    mergeNamed acc m items = acc := by
  induction items generalizing acc with
  | nil => rfl
  | cons item rest ih =>
    obtain ⟨h1, h2, h3⟩ := h item (List.mem_cons_self _ _)
    have hstep : namedStep m acc item = acc := by
      simp [namedStep, h1, h2, h3]
    show (item :: rest).foldl (namedStep m) acc = acc
    rw [List.foldl_cons, hstep]
    exact ih acc (fun i hi => h i (List.mem_cons_of_mem _ hi))

/-- The side condition of the final-precedence theorem: every import is a
wildcard whose fetch succeeds with an import-free module with duplicate-free
mapping keys. -/
def WildcardImportsOk (env : ImportEnv) (base : String)
    (imps : List ImportDecl) : Prop :=
  ∀ imp ∈ imps, imp.items = .star ∧
    ∃ m nb, env.fetch base imp.source = some (m, nb) ∧ m.imports = [] ∧
      (m.vars.map Prod.fst).Nodup ∧ (m.functions.map Prod.fst).Nodup ∧
      (m.containers.map Prod.fst).Nodup

theorem wildcardFold_lookup (env : ImportEnv) (fuel : Nat) (base n : String) :
    ∀ (imps : List ImportDecl) (acc : Program),
      WildcardImportsOk env base imps →
      ((imps.foldl
          (importStep env (fun prog importBase =>
            resolveImportsCore env fuel prog importBase) base) acc).vars.lookup n =
        firstSome
          ((fetchedModules env base imps).reverse.findSome?
            (fun m => m.vars.lookup n))
          (acc.vars.lookup n)) ∧
      ((imps.foldl
          (importStep env (fun prog importBase =>
            resolveImportsCore env fuel prog importBase) base) acc).functions.lookup n =
        firstSome
          ((fetchedModules env base imps).reverse.findSome?
            (fun m => m.functions.lookup n))
          (acc.functions.lookup n)) ∧
      ((imps.foldl
          (importStep env (fun prog importBase =>
            resolveImportsCore env fuel prog importBase) base) acc).containers.lookup n =
        firstSome
          ((fetchedModules env base imps).reverse.findSome?
            (fun m => m.containers.lookup n))
          (acc.containers.lookup n)) := by
  intro imps
  induction imps with
  | nil =>
    intro acc _
    simp [fetchedModules, firstSome]
  | cons imp rest ih =>
    intro acc h
    obtain ⟨hstar, m, nb, hf, hempty, hnV, hnF, hnC⟩ := h imp (List.mem_cons_self _ _)
    have hmods : fetchedModules env base (imp :: rest) = m :: fetchedModules env base rest := by
      simp [fetchedModules, hf]
    have hrest : WildcardImportsOk env base rest :=
      fun i hi => h i (List.mem_cons_of_mem _ hi)
    rw [List.foldl_cons,
      importStep_star env _ base acc imp m nb hf hstar,
      resolveImportsCore_of_no_imports env fuel m nb hempty]
    obtain ⟨ihV, ihF, ihC⟩ := ih (mergeWildcard acc m) hrest
    rw [hmods]
    refine ⟨?_, ?_, ?_⟩
    · rw [ihV, List.reverse_cons, findSome?_append, findSome?_singleton,
        firstSome_assoc]
      congr 1
      show (dictUpdate acc.vars m.vars).lookup n = _
      rw [dictUpdate_lookup, reverse_lookup_of_nodup _ _ hnV]
    · rw [ihF, List.reverse_cons, findSome?_append, findSome?_singleton,
        firstSome_assoc]
      congr 1
      show (dictUpdate acc.functions m.functions).lookup n = _
      rw [dictUpdate_lookup, reverse_lookup_of_nodup _ _ hnF]
    · rw [ihC, List.reverse_cons, findSome?_append, findSome?_singleton,
        firstSome_assoc]
      congr 1
      show (dictUpdate acc.containers m.containers).lookup n = _
      rw [dictUpdate_lookup, reverse_lookup_of_nodup _ _ hnC]

/-- C4 (corrected): on the concrete program declaring x as one and
wildcard-importing a module that declares x as two, the merged program binds
x to the imported value, not to the importing module's own declaration —
the import takes final precedence, refuting the claim. -/
theorem import_overwrites_own_declaration :
    (resolveImportsCore c4Env 2 c4Prog "").vars.lookup "x" =
      some ⟨Expr.lit (.num (.int 2))⟩ ∧
    (resolveImportsCore c4Env 2 c4Prog "").vars.lookup "x" ≠
      some ⟨Expr.lit (.num (.int 1))⟩ := by
  refine ⟨rfl, ?_⟩
  intro h
  rw [show (resolveImportsCore c4Env 2 c4Prog "").vars.lookup "x" =
      some ⟨Expr.lit (.num (.int 2))⟩ from rfl] at h
  simp at h

/-- C4 (amended): import resolution processes imports depth-first in
declaration order, and for every name the merged binding is that of the
last import that binds it, falling back to the importing module's own
declaration only when no import binds the name — merged bindings overwrite
the importing module's own declarations, and later imports overwrite
earlier ones. -/
theorem import_precedence_last_import_wins (env : ImportEnv) (fuel : Nat)
    (p : Program) (base n : String)
    (h : WildcardImportsOk env base p.imports) :
    ((resolveImportsCore env (fuel + 1) p base).vars.lookup n =
      firstSome
        ((fetchedModules env base p.imports).reverse.findSome?
          (fun m => m.vars.lookup n))
        (p.vars.lookup n)) ∧
    ((resolveImportsCore env (fuel + 1) p base).functions.lookup n =
      firstSome
        ((fetchedModules env base p.imports).reverse.findSome?
          (fun m => m.functions.lookup n))
        (p.functions.lookup n)) ∧
    ((resolveImportsCore env (fuel + 1) p base).containers.lookup n =
      firstSome
        ((fetchedModules env base p.imports).reverse.findSome?
          (fun m => m.containers.lookup n))
        (p.containers.lookup n)) := by
  by_cases hemp : p.imports.isEmpty
  · have himps : p.imports = [] := List.isEmpty_iff.mp hemp
    rw [resolveImportsCore, if_pos hemp, himps]
    simp [fetchedModules, firstSome]
  · rw [resolveImportsCore, if_neg hemp]
    exact wildcardFold_lookup env fuel base n p.imports p h

/-- Witness for the amended import-precedence theorem at the concrete
importing program. -/
theorem import_precedence_witness :
    (resolveImportsCore c4Env 1 c4Prog "").vars.lookup "x" =
      firstSome
        ((fetchedModules c4Env "" c4Prog.imports).reverse.findSome?
          (fun m => m.vars.lookup "x"))
        (c4Prog.vars.lookup "x") := by
  have h : WildcardImportsOk c4Env "" c4Prog.imports := by
    intro imp hmem
    simp only [c4Prog, List.mem_singleton] at hmem
    subst hmem
    exact ⟨rfl, c4ModA, "", rfl, rfl, by decide, by decide, by decide⟩
  exact (import_precedence_last_import_wins c4Env 0 c4Prog "" "x" h).1

/-- C5 (corrected): an import naming an item absent from all three mappings
of the resolved module does not raise; resolution returns normally with
the import consumed and nothing merged. -/
theorem import_missing_item_not_an_error :
    resolveImports c4Env 2 c5Prog "" = .ok { c5Prog with imports := [] } ∧
    (resolveImportsCore c4Env 2 c5Prog "").vars.lookup "helper" = none ∧
    (resolveImportsCore c4Env 2 c5Prog "").functions.lookup "helper" = none ∧
    (resolveImportsCore c4Env 2 c5Prog "").containers.lookup "helper" = none :=
  ⟨rfl, rfl, rfl, rfl⟩

/-- C5 (amended): an import whose explicitly named items are all absent from
the resolved module, or whose fetch fails outright, is silently skipped:
resolution returns normally with the program unchanged apart from the
cleared import list. -/
theorem import_missing_item_skipped :
    (∀ (env : ImportEnv) (fuel : Nat) (p : Program) (base src : String)
      (items : List String) (m : Program) (nb : String),
      p.imports = [⟨src, .names items⟩] →
      env.fetch base src = some (m, nb) →
      (∀ item ∈ items,
        (resolveImportsCore env fuel m nb).vars.lookup item = none ∧
        (resolveImportsCore env fuel m nb).functions.lookup item = none ∧
        (resolveImportsCore env fuel m nb).containers.lookup item = none) →
      resolveImports env (fuel + 1) p base = .ok { p with imports := [] }) ∧
    (∀ (env : ImportEnv) (fuel : Nat) (p : Program) (base : String)
      (imp : ImportDecl),
      p.imports = [imp] →
      env.fetch base imp.source = none →
      resolveImports env (fuel + 1) p base = .ok { p with imports := [] }) := by
  constructor
  · intro env fuel p base src items m nb himp hf habs
    have hemp : ¬ p.imports.isEmpty = true := by rw [himp]; simp
    unfold resolveImports
    rw [resolveImportsCore, if_neg hemp, himp, List.foldl_cons,
      importStep_names env _ base p ⟨src, .names items⟩ m nb items hf rfl,
      mergeNamed_id p _ items habs]
    rfl
  · intro env fuel p base imp himp hf
    have hemp : ¬ p.imports.isEmpty = true := by rw [himp]; simp
    unfold resolveImports
    rw [resolveImportsCore, if_neg hemp, himp, List.foldl_cons,
      importStep_skip env _ base p imp hf]
    rfl

/-- Witness for the amended silent-skip theorem at concrete inputs. -/
theorem import_missing_item_skipped_witness :
    resolveImports c4Env 2 c5Prog "" = .ok { c5Prog with imports := [] } ∧
    resolveImports c4Env 1
      { c5Prog with imports := [⟨"missing.vi", .names ["helper"]⟩] } "" =
      .ok { c5Prog with imports := [] } :=
  ⟨import_missing_item_skipped.1 c4Env 1 c5Prog "" "a.vi" ["helper"] c4ModA ""
      rfl rfl
      (by
        intro item hmem
        simp only [List.mem_singleton] at hmem
        subst hmem
        exact ⟨rfl, rfl, rfl⟩),
   import_missing_item_skipped.2 c4Env 0
      { c5Prog with imports := [⟨"missing.vi", .names ["helper"]⟩] } ""
      ⟨"missing.vi", .names ["helper"]⟩ rfl rfl⟩

theorem mergeWildcard_imports_comm (a m : Program) (X : List ImportDecl) :
    mergeWildcard { a with imports := X } m =
      { mergeWildcard a m with imports := X } := by
  cases a
  rfl

theorem namedStep_imports_comm (m a : Program) (item : String)
    (X : List ImportDecl) :
    namedStep m { a with imports := X } item =
      { namedStep m a item with imports := X } := by
  cases a
  unfold namedStep
  cases m.vars.lookup item
  · cases m.functions.lookup item
    · cases m.containers.lookup item <;> rfl
    · rfl
  · rfl

theorem mergeNamed_imports_comm (a m : Program) (items : List String)
    (X : List ImportDecl) :
    mergeNamed { a with imports := X } m items =
      { mergeNamed a m items with imports := X } := by
  induction items generalizing a with
  | nil => rfl
  | cons item rest ih =>
    have lhs : mergeNamed { a with imports := X } m (item :: rest) =
        mergeNamed { namedStep m a item with imports := X } m rest := by
      show (item :: rest).foldl (namedStep m) _ = _
      rw [List.foldl_cons, namedStep_imports_comm]
      rfl
    rw [lhs, ih (namedStep m a item)]
    rfl

theorem importStep_imports_comm (env : ImportEnv)
    (rs : Program → String → Program) (base : String) (a : Program)
    (imp : ImportDecl) (X : List ImportDecl) :
    importStep env rs base { a with imports := X } imp =
      { importStep env rs base a imp with imports := X } := by
  unfold importStep
  cases hf : env.fetch base imp.source with
  | none => rfl
  | some q =>
    cases hi : imp.items with
    | star => exact mergeWildcard_imports_comm a (rs q.1 q.2) X
    | names items => exact mergeNamed_imports_comm a (rs q.1 q.2) items X

theorem foldl_importStep_imports_comm (env : ImportEnv)
    (rs : Program → String → Program) (base : String) :
    ∀ (l : List ImportDecl) (a : Program) (X : List ImportDecl),
      l.foldl (importStep env rs base) { a with imports := X } =
        { l.foldl (importStep env rs base) a with imports := X } := by
  intro l
  induction l with
  | nil => intro a X; rfl
  | cons imp rest ih =>
    intro a X
    rw [List.foldl_cons, List.foldl_cons, importStep_imports_comm, ih]

/-- C10 (confirmed): import resolution is total at the public interface —
it always returns normally; an import whose fetch or nested parse fails is
skipped with the resolution of the remaining imports unaffected; and
explicitly named items absent from all three mappings of the resolved
module merge nothing while the rest proceeds. -/
theorem import_resolution_total_and_skips_failures :
    (∀ (env : ImportEnv) (fuel : Nat) (p : Program) (base : String),
      (resolveImports env fuel p base).isOk = true) ∧
    (∀ (env : ImportEnv) (fuel : Nat) (p : Program) (base : String)
      (pre post : List ImportDecl) (imp : ImportDecl),
      env.fetch base imp.source = none →
      resolveImportsCore env fuel { p with imports := pre ++ imp :: post } base =
        resolveImportsCore env fuel { p with imports := pre ++ post } base) ∧
    (∀ (acc m : Program) (items : List String),
      (∀ item ∈ items, m.vars.lookup item = none ∧
        m.functions.lookup item = none ∧ m.containers.lookup item = none) →
      mergeNamed acc m items = acc) := by
  refine ⟨fun env fuel p base => rfl, ?_, mergeNamed_id⟩
  intro env fuel p base pre post imp hf
  cases fuel with
  | zero => cases p; rfl
  | succ f =>
    have hnorm : ∀ (X : List ImportDecl), ¬ X.isEmpty = true →
        resolveImportsCore env (f + 1) { p with imports := X } base =
          { X.foldl
              (importStep env (fun prog importBase =>
                resolveImportsCore env f prog importBase) base)
              { p with imports := [] }
            with imports := [] } := by
      intro X hne
      rw [resolveImportsCore, if_neg hne]
      have h1 : ({ p with imports := X } : Program) =
          { ({ p with imports := [] } : Program) with imports := X } := by
        cases p; rfl
      conv_lhs => rw [h1]
      rw [foldl_importStep_imports_comm]
    have hne1 : ¬ (pre ++ imp :: post).isEmpty = true := by simp
    rw [hnorm (pre ++ imp :: post) hne1]
    by_cases hpp : (pre ++ post).isEmpty
    · have hnil : pre ++ post = [] := List.isEmpty_iff.mp hpp
      obtain ⟨hpre, hpost⟩ := List.append_eq_nil.mp hnil
      subst hpre
      subst hpost
      simp only [List.nil_append, List.append_nil, List.foldl_cons,
        importStep_skip env _ base _ imp hf]
      rw [resolveImportsCore_of_no_imports env (f + 1)
        { p with imports := ([] : List ImportDecl) } base rfl]
      rfl
    · rw [hnorm (pre ++ post) hpp]
      have : (pre ++ imp :: post).foldl
          (importStep env (fun prog importBase =>
            resolveImportsCore env f prog importBase) base)
          ({ p with imports := [] } : Program) =
        (pre ++ post).foldl
          (importStep env (fun prog importBase =>
            resolveImportsCore env f prog importBase) base)
          ({ p with imports := [] } : Program) := by
        rw [List.foldl_append, List.foldl_cons,
          importStep_skip env _ base _ imp hf, ← List.foldl_append]
      rw [this]

/-- Splitting takeWhile and dropWhile over an appended list whose prefix
satisfies the predicate and whose first appended element fails it. -/
lemma takeWhile_dropWhile_split (p : Char → Bool) :
    ∀ (b : List Char) (d : Char) (cs : List Char),
      (∀ ch ∈ b, p ch = true) → p d = false →
      (b ++ d :: cs).takeWhile p = b ∧ (b ++ d :: cs).dropWhile p = d :: cs := by
  intro b
  induction b with
  | nil =>
    intro d cs _ hd
    simp [List.takeWhile_cons, List.dropWhile_cons, hd]
  | cons a b ih =>
    intro d cs h hd
    have ha : p a = true := h a (List.mem_cons_self a b)
    obtain ⟨h1, h2⟩ := ih d cs (fun ch hch => h ch (List.mem_cons_of_mem a hch)) hd
    simp [List.takeWhile_cons, List.dropWhile_cons, ha, h1, h2]

/-- The binding scanner finds nothing in text without an opening brace. -/
lemma findBindGroupsGo_no_open :
    ∀ (fuel : Nat) (prev : Option Char) (cs : List Char),
      (∀ ch ∈ cs, ch ≠ '\x7b') → findBindGroupsGo fuel prev cs = [] := by
  intro fuel
  induction fuel with
  | zero => intro prev cs _; rfl
  | succ f ih =>
    intro prev cs h
    cases cs with
    | nil => rfl
    | cons c rest =>
      have hc : c ≠ '\x7b' := h c (List.mem_cons_self c rest)
      rw [findBindGroupsGo, if_neg hc]
      exact ih (some c) rest (fun ch hch => h ch (List.mem_cons_of_mem c hch))

/-- An opening brace directly after an opening brace is rejected by the
negative lookbehind. -/
lemma findBindGroupsGo_open_after_open (fuel : Nat) (rest : List Char) :
    findBindGroupsGo (fuel + 1) (some '\x7b') ('\x7b' :: rest) =
      findBindGroupsGo fuel (some '\x7b') rest := by
  rw [findBindGroupsGo, if_pos rfl, if_pos rfl]

/-- An opening brace whose next character is again an opening brace starts
no group: the content class admits no brace. -/
lemma findBindGroupsGo_open_then_open (fuel : Nat) (prev : Option Char)
    (hprev : prev ≠ some '\x7b') (rest : List Char) :
    findBindGroupsGo (fuel + 1) prev ('\x7b' :: '\x7b' :: rest) =
      findBindGroupsGo fuel (some '\x7b') ('\x7b' :: rest) := by
  rw [findBindGroupsGo, if_pos rfl, if_neg hprev]
  simp [List.dropWhile_cons]

/-- A well-formed single-brace group with nonempty brace-free content and a
closing brace not followed by another closing brace is matched. -/
lemma findBindGroupsGo_group (fuel : Nat) (prev : Option Char)
    (hprev : prev ≠ some '\x7b') (b : List Char) (hne : b ≠ [])
    (hb : ∀ ch ∈ b, ch ≠ '\x7b' ∧ ch ≠ '\x7d')
    (rest' : List Char) (hr : rest'.head? ≠ some '\x7d') :
    findBindGroupsGo (fuel + 1) prev ('\x7b' :: (b ++ '\x7d' :: rest')) =
      b :: findBindGroupsGo fuel (some '\x7d') rest' := by
  rw [findBindGroupsGo, if_pos rfl, if_neg hprev]
  obtain ⟨h1, h2⟩ := takeWhile_dropWhile_split
    (fun x => x ≠ '\x7b' && x ≠ '\x7d') b '\x7d' rest'
    (by intro ch hch
        obtain ⟨ha, hbb⟩ := hb ch hch
        simp [ha, hbb])
    (by simp)
  simp only [h1, h2]
  rw [if_pos]
  simp [List.isEmpty_iff, hne, hr]

/-- The interpolation substitution of emission is the identity on text
without an opening brace. -/
lemma subBracesGo_no_open :
    ∀ (fuel : Nat) (cs : List Char),
      (∀ ch ∈ cs, ch ≠ '\x7b') → subBracesGo fuel cs = cs := by
  intro fuel
  induction fuel with
  | zero => intro cs _; rfl
  | succ f ih =>
    intro cs h
    cases cs with
    | nil => rfl
    | cons c rest =>
      have hc : c ≠ '\x7b' := h c (List.mem_cons_self c rest)
      rw [subBracesGo, if_neg hc,
        ih rest (fun ch hch => h ch (List.mem_cons_of_mem c hch))]

/-- The substitution of emission rewrites an opening brace followed by
nonempty content free of closing braces and a closing brace into a dollar
interpolation, whatever the content holds — including further opening
braces. -/
lemma subBracesGo_group (fuel : Nat) (content : List Char)
    (hne : content ≠ []) (hc : ∀ ch ∈ content, ch ≠ '\x7d')
    (rest' : List Char) :
    subBracesGo (fuel + 1) ('\x7b' :: (content ++ '\x7d' :: rest')) =
      '$' :: '\x7b' :: (content ++ '\x7d' :: subBracesGo fuel rest') := by
  rw [subBracesGo, if_pos rfl]
  obtain ⟨h1, h2⟩ := takeWhile_dropWhile_split
    (fun x => x ≠ '\x7d') content '\x7d' rest'
    (by intro ch hch; simp [hc ch hch]) (by simp)
  simp only [h1, h2]
  rw [if_neg]
  simp [List.isEmpty_iff, hne]

/-- C8 (counterexample): on the doubled-brace literal the emitted Dart
string gains a dollar interpolation marker — the doubled braces are NOT left
as literal brace characters — even though binding extraction correctly
finds no binding in it and the source text holds no dollar. -/
theorem doubled_brace_becomes_interpolation :
    genExpr (analyze emptyProg) {} (.lit (.str "\x7b\x7bx\x7d\x7d")) =
      "\"$\x7b\x7bx\x7d\x7d\"" ∧
    '$' ∈ (genExpr (analyze emptyProg) {} (.lit (.str "\x7b\x7bx\x7d\x7d"))).data ∧
    extractTextBindings "\x7b\x7bx\x7d\x7d" = [] ∧
    '$' ∉ ("\x7b\x7bx\x7d\x7d" : String).data := by
  refine ⟨rfl, by decide, rfl, by decide⟩

/-- C8 (amended): binding extraction treats a doubled-brace escape as
literal braces — it extracts no binding from a doubled-brace group, while a
single-brace group with the same content yields exactly its root binding —
but the emitted string interpolation does NOT leave doubled braces alone:
its substitution, whose content class excludes only closing braces,
swallows the second opening brace and rewrites the group into a dollar
interpolation. -/
theorem doubled_brace_extraction_vs_emission (b : List Char) (cg : Cg) (d : Dyn)
    (hne : b ≠ []) (hb : ∀ ch ∈ b, ch ≠ '\x7b' ∧ ch ≠ '\x7d') :
    extractTextBindings (String.mk ('\x7b' :: '\x7b' :: (b ++ ['\x7d', '\x7d']))) = [] ∧
    extractTextBindings (String.mk ('\x7b' :: (b ++ ['\x7d']))) = [bindingRoot b] ∧
    subBraces (String.mk ('\x7b' :: '\x7b' :: (b ++ ['\x7d', '\x7d']))) =
      String.mk ('$' :: '\x7b' :: '\x7b' :: (b ++ ['\x7d', '\x7d'])) ∧
    genExpr cg d (.lit (.str (String.mk ('\x7b' :: '\x7b' :: (b ++ ['\x7d', '\x7d']))))) =
      "\"" ++ subBraces (String.mk ('\x7b' :: '\x7b' :: (b ++ ['\x7d', '\x7d']))) ++ "\"" := by
  refine ⟨?_, ?_, ?_, ?_⟩
  · show (findBindGroupsGo (('\x7b' :: '\x7b' :: (b ++ ['\x7d', '\x7d'])).length + 1)
        none ('\x7b' :: '\x7b' :: (b ++ ['\x7d', '\x7d']))).foldl _ [] = []
    have hlen : ('\x7b' :: '\x7b' :: (b ++ ['\x7d', '\x7d'])).length + 1 =
        (b.length + 3) + 1 + 1 := by
      simp
    rw [hlen, findBindGroupsGo_open_then_open (b.length + 3 + 1) none (by simp),
      findBindGroupsGo_open_after_open,
      findBindGroupsGo_no_open _ _ _ ?_]
    · rfl
    · intro ch hch
      rcases List.mem_append.mp hch with h | h
      · exact (hb ch h).1
      · simp only [List.mem_cons, List.not_mem_nil, or_false] at h
        rcases h with h | h <;> (subst h; decide)
  · show (findBindGroupsGo (('\x7b' :: (b ++ ['\x7d'])).length + 1)
        none ('\x7b' :: (b ++ ['\x7d']))).foldl _ [] = [bindingRoot b]
    have hlen : ('\x7b' :: (b ++ ['\x7d'])).length + 1 = (b.length + 2) + 1 := by
      simp
    rw [hlen, findBindGroupsGo_group (b.length + 2) none (by simp) b hne hb [] (by simp),
      findBindGroupsGo_no_open _ _ _ (by intro ch hch; cases hch)]
    rfl
  · show String.mk (subBracesGo (('\x7b' :: '\x7b' :: (b ++ ['\x7d', '\x7d'])).length + 1)
        ('\x7b' :: '\x7b' :: (b ++ ['\x7d', '\x7d']))) = _
    have hshape : ('\x7b' :: '\x7b' :: (b ++ ['\x7d', '\x7d'])) =
        ('\x7b' :: (('\x7b' :: b) ++ '\x7d' :: ['\x7d'])) := by simp
    have hlen : ('\x7b' :: '\x7b' :: (b ++ ['\x7d', '\x7d'])).length + 1 =
        (b.length + 4) + 1 := by
      simp
    rw [hlen]
    conv_lhs => rw [hshape]
    rw [subBracesGo_group (b.length + 4) ('\x7b' :: b) (by simp) ?hc ['\x7d'],
      subBracesGo_no_open _ _ (by intro ch hch; simp at hch; subst hch; decide)]
    · simp
    case hc =>
      intro ch hch
      rcases List.mem_cons.mp hch with h | h
      · subst h; decide
      · exact (hb ch h).2
  · show genLitString (String.mk ('\x7b' :: '\x7b' :: (b ++ ['\x7d', '\x7d']))) = _
    rw [genLitString, if_pos]
    simp [List.contains_cons]

/-- Witness for the amended C8 theorem at content x. -/
theorem doubled_brace_extraction_vs_emission_witness :
    extractTextBindings (String.mk ('\x7b' :: '\x7b' :: (['x'] ++ ['\x7d', '\x7d']))) = [] ∧
    extractTextBindings (String.mk ('\x7b' :: (['x'] ++ ['\x7d']))) = [bindingRoot ['x']] ∧
    subBraces (String.mk ('\x7b' :: '\x7b' :: (['x'] ++ ['\x7d', '\x7d']))) =
      String.mk ('$' :: '\x7b' :: '\x7b' :: (['x'] ++ ['\x7d', '\x7d'])) ∧
    genExpr (analyze emptyProg) {}
        (.lit (.str (String.mk ('\x7b' :: '\x7b' :: (['x'] ++ ['\x7d', '\x7d']))))) =
      "\"" ++ subBraces (String.mk ('\x7b' :: '\x7b' :: (['x'] ++ ['\x7d', '\x7d']))) ++ "\"" :=
  doubled_brace_extraction_vs_emission ['x'] (analyze emptyProg) {}
    (by decide) (by decide)

/-- A fold whose every step preserves the lookup at a key preserves it. -/
lemma foldl_lookup_preserve {α β : Type}
    (f : List (String × α) → β → List (String × α)) (k : String) :
    ∀ (l : List β) (acc : List (String × α)),
      (∀ b ∈ l, ∀ acc2 : List (String × α), (f acc2 b).lookup k = acc2.lookup k) →
      (l.foldl f acc).lookup k = acc.lookup k := by
  intro l
  induction l with
  | nil => intro acc _; rfl
  | cons b rest ih =>
    intro acc h
    rw [List.foldl_cons,
      ih _ (fun x hx acc2 => h x (List.mem_cons_of_mem b hx) acc2),
      h b (List.mem_cons_self b rest) acc]

/-- The pass-1 fold of analyze registers a container with a two-element
literal integer repeat_by under its name, with the dimension product. -/
lemma repeatedFold_lookup (cname : String) (cont : Container)
    (elems : List Expr) (r c : Int) :
    ∀ (l : List (String × Container)) (acc : List (String × (Int × Int × Int))),
      (l.map Prod.fst).Nodup →
      l.lookup cname = some cont →
      cont.attributes.lookup "repeat_by" = some (.arr elems) →
      litIntDims elems = [r, c] →
      (l.foldl
        (fun acc p =>
          match p.2.attributes.lookup "repeat_by" with
          | some (.arr elems) =>
            match litIntDims elems with
            | [rows, cols] => updateOne acc p.1 (rows, cols, rows * cols)
            | _ => acc
          | _ => acc)
        acc).lookup cname = some (r, c, r * c) := by
  intro l
  induction l with
  | nil => intro acc _ hl _ _; rw [lookup_nil] at hl; cases hl
  | cons p rest ih =>
    intro acc hnd hl hrep hdims
    rw [List.map_cons, List.nodup_cons] at hnd
    rw [lookup_cons] at hl
    by_cases hk : cname = p.1
    · rw [if_pos hk] at hl
      injection hl with hl
      subst hl
      rw [List.foldl_cons]
      simp only [hrep, hdims]
      rw [foldl_lookup_preserve _ cname rest _ ?_, updateOne_lookup,
        if_pos hk]
      intro b hb acc2
      have hbk : ¬ cname = b.1 := by
        intro he
        exact hnd.1 (hk ▸ he ▸ List.mem_map_of_mem Prod.fst hb)
      show (match b.2.attributes.lookup "repeat_by" with
        | some (.arr elems) =>
          match litIntDims elems with
          | [rows, cols] => updateOne acc2 b.1 (rows, cols, rows * cols)
          | _ => acc2
        | _ => acc2).lookup cname = acc2.lookup cname
      split
      · split
        · rw [updateOne_lookup, if_neg hbk]
        · rfl
      · rfl
    · rw [if_neg hk] at hl
      rw [List.foldl_cons]
      exact ih _ hnd.2 hl hrep hdims

/-- The attribute fold of recordMod contains an attribute at a container
either because it inserts it there or because it was already present. -/
lemma modFold_mem (cname c A : String) :
    ∀ (attrs : List (String × Expr)) (t : List (String × List String)),
      ((A ∈ attrs.map Prod.fst ∧ c = cname) ∨ A ∈ ((t.lookup c).getD [])) →
      A ∈ (((attrs.foldl
        (fun t p =>
          updateOne t cname (insertIfAbsent ((t.lookup cname).getD []) p.1))
        t).lookup c).getD []) := by
  intro attrs
  induction attrs with
  | nil =>
    intro t h
    rcases h with ⟨hA, _⟩ | h
    · cases hA
    · exact h
  | cons p attrs ih =>
    intro t h
    rw [List.foldl_cons]
    apply ih
    rcases h with ⟨hA, hc⟩ | h
    · rw [List.map_cons, List.mem_cons] at hA
      rcases hA with rfl | hA
      · right
        subst hc
        rw [updateOne_lookup, if_pos rfl]
        exact (mem_insertIfAbsent _ _ _).mpr (Or.inr rfl)
      · exact Or.inl ⟨hA, hc⟩
    · right
      rw [updateOne_lookup]
      by_cases hc : c = cname
      · rw [if_pos hc]
        subst hc
        exact mem_insertIfAbsent_of_mem _ _ _ h
      · rw [if_neg hc]
        exact h

/-- recordMod records each listed attribute at its container and preserves
everything already recorded. -/
lemma mem_recordMod (tbl : List (String × List String)) (cname c A : String)
    (attrs : List (String × Expr))
    (h : (A ∈ attrs.map Prod.fst ∧ c = cname) ∨ A ∈ ((tbl.lookup c).getD [])) :
    A ∈ (((recordMod tbl cname attrs).lookup c).getD []) := by
  apply modFold_mem
  rcases h with h | h
  · exact Or.inl h
  · right
    show A ∈ ((((if (tbl.lookup cname).isSome then tbl
        else tbl ++ [(cname, [])]).lookup c)).getD [])
    split
    · exact h
    · rw [lookup_append]
      cases hc : tbl.lookup c with
      | none => rw [hc] at h; cases h
      | some l =>
        rw [hc] at h
        simpa [firstSome] using h

mutual

/-- The pass-3 statement scan never loses a recorded attribute. -/
theorem scanStmt_mono (pcm : List (String × String)) (c A : String) :
    ∀ (s : Stmt) (tbl : List (String × List String)),
      A ∈ ((tbl.lookup c).getD []) →
      A ∈ (((scanStmt pcm tbl s).lookup c).getD [])
  | .assign _ _, _, h => h
  | .ret _, _, h => h
  | .exprStmt _, _, h => h
  | .modify target attrs, tbl, h => by
    rw [scanStmt]
    split
    · exact mem_recordMod _ _ _ _ _ (Or.inr h)
    · exact h
  | .sif _ th el, tbl, h =>
    scanStmts_mono pcm c A el _ (scanStmts_mono pcm c A th tbl h)
  | .sfor _ _ b, tbl, h => scanStmts_mono pcm c A b tbl h

/-- The pass-3 list scan never loses a recorded attribute. -/
theorem scanStmts_mono (pcm : List (String × String)) (c A : String) :
    ∀ (l : List Stmt) (tbl : List (String × List String)),
      A ∈ ((tbl.lookup c).getD []) →
      A ∈ (((scanStmts pcm tbl l).lookup c).getD [])
  | [], _, h => h
  | s :: rest, tbl, h =>
    scanStmts_mono pcm c A rest _ (scanStmt_mono pcm c A s tbl h)

end

/-- A statement targeting a container attribute by any of the three target
forms is recorded by the pass-3 scan of any statement containing it. -/
theorem scanStmt_complete (pcm : List (String × String)) (c A : String)
    (s t : Stmt) (hocc : Occ s t) (htv : TargetsVia pcm c A s) :
    ∀ tbl, A ∈ (((scanStmt pcm tbl t).lookup c).getD []) := by
  have hitlist : ∀ (u : Stmt) (l : List Stmt), u ∈ l →
      (∀ tbl, A ∈ (((scanStmt pcm tbl u).lookup c).getD [])) →
      ∀ tbl, A ∈ (((scanStmts pcm tbl l).lookup c).getD []) := by
    intro u l
    induction l with
    | nil => intro h; cases h
    | cons v rest ih =>
      intro hmem hu tbl
      rw [scanStmts]
      rcases List.mem_cons.mp hmem with rfl | hmem
      · exact scanStmts_mono pcm c A rest _ (hu tbl)
      · exact ih hmem hu _
  induction hocc with
  | refl =>
    intro tbl
    cases htv with
    | direct v attrs hnone hv hA =>
      rw [scanStmt]
      have hres : resolveModTarget pcm (.evar v) = some c := by
        rw [resolveModTarget, hnone]
        simp [hv]
      rw [hres]
      exact mem_recordMod _ _ _ _ _ (Or.inl ⟨hA, rfl⟩)
    | viaParam v attrs hsome hA =>
      rw [scanStmt]
      have hres : resolveModTarget pcm (.evar v) = some c := by
        rw [resolveModTarget, hsome]
        rfl
      rw [hres]
      exact mem_recordMod _ _ _ _ _ (Or.inl ⟨hA, rfl⟩)
    | viaMember obj f attrs hbase hA =>
      rw [scanStmt]
      have hres : resolveModTarget pcm (.member obj f) = some c := hbase
      rw [hres]
      exact mem_recordMod _ _ _ _ _ (Or.inl ⟨hA, rfl⟩)
  | inThen hmem _ ih =>
    intro tbl
    rw [scanStmt]
    exact scanStmts_mono pcm c A _ _ (hitlist _ _ hmem ih tbl)
  | inElse hmem _ ih =>
    intro tbl
    rw [scanStmt]
    exact hitlist _ _ hmem ih _
  | inFor hmem _ ih =>
    intro tbl
    rw [scanStmt]
    exact hitlist _ _ hmem ih tbl

/-- Pass 3 over all functions records an attribute targeted anywhere in the
body of any function, resolved through that function's parameter map. -/
theorem modifiedContainersOf_complete (P : Program)
    (pcmAll : List (String × List (String × String)))
    (fname : String) (fn : Func) (c A : String) (s : Stmt)
    (hfn : (fname, fn) ∈ P.functions)
    (hocc : OccIn s fn.body)
    (htv : TargetsVia ((pcmAll.lookup fname).getD []) c A s) :
    A ∈ (((modifiedContainersOf P pcmAll).lookup c).getD []) := by
  obtain ⟨l1, l2, hsplit⟩ := List.append_of_mem hfn
  obtain ⟨t, htmem, hocc2⟩ := hocc
  have hmono : ∀ (l : List (String × Func)) (tbl : List (String × List String)),
      A ∈ ((tbl.lookup c).getD []) →
      A ∈ (((l.foldl
        (fun tbl p => scanStmts ((pcmAll.lookup p.1).getD []) tbl p.2.body)
        tbl).lookup c).getD []) := by
    intro l
    induction l with
    | nil => intro tbl h; exact h
    | cons p rest ih =>
      intro tbl h
      rw [List.foldl_cons]
      exact ih _ (scanStmts_mono _ _ _ _ _ h)
  have hone : ∀ tbl2, A ∈ (((scanStmt ((pcmAll.lookup fname).getD []) tbl2
      t).lookup c).getD []) :=
    scanStmt_complete _ _ _ s t hocc2 htv
  have hhit : ∀ (body : List Stmt), t ∈ body →
      ∀ tbl, A ∈ (((scanStmts ((pcmAll.lookup fname).getD []) tbl
        body).lookup c).getD []) := by
    intro body
    induction body with
    | nil => intro hmem; cases hmem
    | cons v rest ih =>
      intro hmem tbl
      rw [scanStmts]
      rcases List.mem_cons.mp hmem with rfl | hmem2
      · exact scanStmts_mono _ _ _ rest _ (hone tbl)
      · exact ih hmem2 _
  show A ∈ (((P.functions.foldl
      (fun tbl p => scanStmts ((pcmAll.lookup p.1).getD []) tbl p.2.body)
      []).lookup c).getD [])
  rw [hsplit, List.foldl_append, List.foldl_cons]
  exact hmono l2 _ (hhit fn.body htmem _)

/-- The state-field fold emits the declaration line for every modified
attribute of every registered repeated container. -/
lemma stateFieldFold_mem (modified : List (String × List String))
    (cname A : String) (r c count : Int) (props : List String)
    (hmod : modified.lookup cname = some props) (hA : A ∈ props) :
    ∀ (l : List (String × (Int × Int × Int))) (acc : List String),
      ((cname, (r, c, count)) ∈ l ∨ stateFieldLine cname A count ∈ acc) →
      stateFieldLine cname A count ∈ l.foldl
        (fun acc p =>
          match modified.lookup p.1 with
          | some props =>
            acc ++ props.map (fun prop => stateFieldLine p.1 prop p.2.2.2) ++ [""]
          | none => acc)
        acc := by
  intro l
  induction l with
  | nil =>
    intro acc h
    rcases h with h | h
    · cases h
    · exact h
  | cons p rest ih =>
    intro acc h
    rw [List.foldl_cons]
    apply ih
    rcases h with h | h
    · rcases List.mem_cons.mp h with heq | h
      · right
        rw [← heq]
        simp only [hmod]
        exact List.mem_append_left _
          (List.mem_append_right _ (List.mem_map_of_mem _ hA))
      · exact Or.inl h
    · right
      split
      · exact List.mem_append_left _ (List.mem_append_left _ h)
      · exact h

/-- C1 (counterexample): the container g carries a three-element literal
integer repeat_by, the function f contains an attribute-mutation statement
targeting (g, text_content) directly by container name, and the scan does
record the pair in the state-lift table — yet analyze registers no repeat
geometry for g and the stateful class declares no state-list field at
all. -/
theorem three_dim_repeat_no_state_field :
    ("f", (⟨[], [.modify (.evar "g") [("text_content", .lit (.str "hi"))]]⟩ : Func))
      ∈ c1Prog.functions ∧
    OccIn (.modify (.evar "g") [("text_content", .lit (.str "hi"))])
      [.modify (.evar "g") [("text_content", .lit (.str "hi"))]] ∧
    TargetsVia (((analyze c1Prog).pcm.lookup "f").getD []) "g" "text_content"
      (.modify (.evar "g") [("text_content", .lit (.str "hi"))]) ∧
    memModified (analyze c1Prog) "g" "text_content" = true ∧
    (analyze c1Prog).repeated.lookup "g" = none ∧
    stateFieldLines (analyze c1Prog) = [] :=
  ⟨List.mem_cons_self _ _,
   ⟨_, List.mem_cons_self _ _, Occ.refl _⟩,
   TargetsVia.direct "g" _ rfl rfl (by decide),
   by decide, by decide, by decide⟩

/-- C1 (amended): for every container with a TWO-element literal integer
repeat_by and every attribute targeted by some attribute-mutation statement
anywhere in any function body — directly, through a click-handler parameter
or through a member chain — analyze registers the repeat geometry with the
dimension product, records the pair in the state-lift table, and the
stateful class declares the fixed-length list field of that product
length. -/
theorem state_lift_two_dims (P : Program) (cname A fname : String)
    (cont : Container) (elems : List Expr) (r c : Int) (fn : Func) (s : Stmt)
    (hnodup : (P.containers.map Prod.fst).Nodup)
    (hcont : P.containers.lookup cname = some cont)
    (hrep : cont.attributes.lookup "repeat_by" = some (.arr elems))
    (hdims : litIntDims elems = [r, c])
    (hfn : (fname, fn) ∈ P.functions)
    (hocc : OccIn s fn.body)
    (htv : TargetsVia (((analyze P).pcm.lookup fname).getD []) cname A s) :
    (analyze P).repeated.lookup cname = some (r, c, r * c) ∧
    memModified (analyze P) cname A = true ∧
    stateFieldLine cname A (r * c) ∈ stateFieldLines (analyze P) := by
  have hrlook : (repeatedContainersOf P).lookup cname = some (r, c, r * c) :=
    repeatedFold_lookup cname cont elems r c P.containers [] hnodup hcont
      hrep hdims
  have hmodmem : A ∈ (((modifiedContainersOf P
      (paramContainerMapOf P (repeatedContainersOf P))).lookup cname).getD []) :=
    modifiedContainersOf_complete P _ fname fn cname A s hfn hocc htv
  cases hml : (modifiedContainersOf P
      (paramContainerMapOf P (repeatedContainersOf P))).lookup cname with
  | none => rw [hml] at hmodmem; cases hmodmem
  | some props =>
    rw [hml] at hmodmem
    simp only [Option.getD_some] at hmodmem
    refine ⟨hrlook, ?_, ?_⟩
    · show (match (modifiedContainersOf P
          (paramContainerMapOf P (repeatedContainersOf P))).lookup cname with
        | some props => decide (A ∈ props)
        | none => false) = true
      rw [hml]
      exact decide_eq_true hmodmem
    · exact stateFieldFold_mem
        (modifiedContainersOf P (paramContainerMapOf P (repeatedContainersOf P)))
        cname A r c (r * c) props hml hmodmem
        (repeatedContainersOf P) []
        (Or.inl (mem_of_lookup _ _ _ hrlook))

/-- Membership in the emitted builder index domain is exactly the half-open
range from zero to the cell count. -/
lemma mem_builderIndices (n i : Int) :
    i ∈ builderIndices n ↔ 0 ≤ i ∧ i < n := by
  unfold builderIndices
  constructor
  · intro h
    obtain ⟨m, hm, he⟩ := List.mem_map.mp h
    rw [List.mem_range] at hm
    subst he
    exact ⟨Int.ofNat_nonneg m, by show (m : Int) < n; omega⟩
  · rintro ⟨h0, h1⟩
    exact List.mem_map.mpr ⟨i.toNat, List.mem_range.mpr (by omega),
      by show (i.toNat : Int) = i; omega⟩

/-- C2: for a container with a two-element literal integer repeat_by of R
rows and C columns, a member access container.XxYy.prop and an
attribute-mutation through container.XxYy are both emitted against the
state list at flat index y times C plus x, the emitted collection builder
expands R times C cells, and its index domain is exactly the integers from
zero up to R times C. -/
theorem grid_index_and_builder_domain (P : Program)
    (cname field prop : String) (cont : Container) (elems : List Expr)
    (R C : Int) (x y : Nat) (d : Dyn) (indent : Nat)
    (attrs : List (String × Expr))
    (hnodup : (P.containers.map Prod.fst).Nodup)
    (hcont : P.containers.lookup cname = some cont)
    (hrep : cont.attributes.lookup "repeat_by" = some (.arr elems))
    (hdims : litIntDims elems = [R, C])
    (hxy : parseXY field = some (x, y))
    (hx : (x : Int) < C) (hy : (y : Int) < R) :
    genExpr (analyze P) d (.member (.member (.evar cname) field) prop) =
      cname ++ "_" ++ prop ++ "[" ++ toString ((y : Int) * C + (x : Int)) ++ "]" ∧
    genStmt (analyze P) P d indent (.modify (.member (.evar cname) field) attrs) =
      (attrs.map (fun p =>
        indentStr indent ++ cname ++ "_" ++ p.1 ++ "[" ++
          toString ((y : Int) * C + (x : Int)) ++ "] = " ++
          modValStr (analyze P) d p.1 p.2 ++ ";"), d) ∧
    builderCellCount cont = some (R * C) ∧
    (∀ i : Int, i ∈ builderIndices (R * C) ↔ 0 ≤ i ∧ i < R * C) := by
  have hrlook : (analyze P).repeated.lookup cname = some (R, C, R * C) :=
    repeatedFold_lookup cname cont elems R C P.containers [] hnodup hcont
      hrep hdims
  refine ⟨?_, ?_, ?_, fun i => mem_builderIndices _ i⟩
  · rw [genExpr]
    simp [hrlook, hxy]
  · rw [genStmt]
    simp [baseName, hrlook, cellIndexFromMember, hxy]
  · simp only [builderCellCount, repeatGridDims, hrep, hdims]
    rfl

/-- Witness for the C2 theorem on the two-by-three grid at cell X1Y1. -/
theorem grid_index_and_builder_domain_witness :
    genExpr (analyze c2Prog) {}
        (.member (.member (.evar "grid") "X1Y1") "text_content") =
      "grid" ++ "_" ++ "text_content" ++ "[" ++
        toString ((1 : Int) * 3 + (1 : Int)) ++ "]" ∧
    genStmt (analyze c2Prog) c2Prog {} 2
        (.modify (.member (.evar "grid") "X1Y1")
          [("text_content", .lit (.str "z"))]) =
      ([("text_content", .lit (.str "z"))].map
        (fun p : String × Expr =>
          indentStr 2 ++ "grid" ++ "_" ++ p.1 ++ "[" ++
            toString ((1 : Int) * 3 + (1 : Int)) ++ "] = " ++
            modValStr (analyze c2Prog) {} p.1 p.2 ++ ";"), ({} : Dyn)) ∧
    builderCellCount
        (.mk [("repeat_by", .arr [.lit (.num (.int 2)), .lit (.num (.int 3))])] [])
      = some (2 * 3) ∧
    (∀ i : Int, i ∈ builderIndices (2 * 3) ↔ 0 ≤ i ∧ i < 2 * 3) :=
  grid_index_and_builder_domain c2Prog "grid" "X1Y1" "text_content"
    (.mk [("repeat_by", .arr [.lit (.num (.int 2)), .lit (.num (.int 3))])] [])
    [.lit (.num (.int 2)), .lit (.num (.int 3))] 2 3 1 1 {} 2
    [("text_content", .lit (.str "z"))]
    (by decide) rfl rfl rfl (by decide) (by decide) (by decide)

/-- Witness for the amended C1 theorem on the two-by-three grid program. -/
theorem state_lift_two_dims_witness :
    (analyze c2Prog).repeated.lookup "grid" = some (2, 3, 6) ∧
    memModified (analyze c2Prog) "grid" "text_content" = true ∧
    stateFieldLine "grid" "text_content" 6 ∈ stateFieldLines (analyze c2Prog) :=
  state_lift_two_dims c2Prog "grid" "text_content" "f"
    (.mk [("repeat_by", .arr [.lit (.num (.int 2)), .lit (.num (.int 3))])] [])
    [.lit (.num (.int 2)), .lit (.num (.int 3))] 2 3
    ⟨[], [.modify (.member (.evar "grid") "X1Y1")
      [("text_content", .lit (.str "z"))]]⟩
    (.modify (.member (.evar "grid") "X1Y1")
      [("text_content", .lit (.str "z"))])
    (by decide) rfl rfl rfl
    (List.mem_cons_self _ _)
    ⟨_, List.mem_cons_self _ _, Occ.refl _⟩
    (TargetsVia.viaMember (.evar "grid") "X1Y1" _ rfl (by decide))

/-- The character list of a packed string. -/
lemma data_mk (l : List Char) : (String.mk l).data = l := rfl

/-- The character list of an indent prefix. -/
lemma indentStr_data (n : Nat) :
    (indentStr n).data = List.replicate (2 * n) ' ' := rfl

/-- The boundary line spelled out. -/
lemma bLineData : bLine.data =
    [' ', ' ', ' ', ' ', 's', 'e', 't', 'S', 't', 'a', 't', 'e',
     '(', '(', ')', ' ', '\x7b'] := rfl

/-- An emitted line ending in a semicolon is never the boundary line. -/
lemma semicolon_ne_bLine (s : String) : ¬ s ++ ";" = bLine := by
  intro h
  have h1 : (s ++ ";").data.getLast? = some ';' := by
    rw [String.data_append]
    exact List.getLast?_concat _
  rw [h, bLineData] at h1
  exact absurd h1 (by decide)

/-- A line of at least four spaces of indent whose first character after
the indent is neither s nor a space is never the boundary line. -/
lemma replicate_cons_ne_bLineData (m : Nat) (hm : 4 ≤ m) (c : Char)
    (hc1 : ¬ c = 's') (hc2 : ¬ c = ' ') (tail : List Char) :
    ¬ (List.replicate m ' ' ++ c :: tail = bLine.data) := by
  intro h
  obtain ⟨k, rfl⟩ : ∃ k, m = 4 + k := ⟨m - 4, by omega⟩
  rw [List.replicate_add, List.append_assoc, bLineData] at h
  have h4 : (List.replicate 4 ' ' : List Char) = [' ', ' ', ' ', ' '] := rfl
  rw [h4] at h
  have hb : ([' ', ' ', ' ', ' '] : List Char) ++
      ['s', 'e', 't', 'S', 't', 'a', 't', 'e', '(', '(', ')', ' ', '\x7b'] =
      [' ', ' ', ' ', ' ', 's', 'e', 't', 'S', 't', 'a', 't', 'e',
       '(', '(', ')', ' ', '\x7b'] := rfl
  rw [← hb] at h
  have h5 := List.append_cancel_left h
  cases k with
  | zero =>
    rw [List.replicate_zero, List.nil_append] at h5
    injection h5 with h6 _
    exact hc1 h6
  | succ k2 =>
    rw [List.replicate_succ, List.cons_append] at h5
    injection h5 with h6 _
    exact absurd h6 (by decide)

mutual

/-- No line emitted for a statement at indent two or deeper is the
reactivity-boundary opening line. -/
theorem genStmt_no_bLine (cg : Cg) (P : Program) :
    ∀ (s : Stmt) (d : Dyn) (n : Nat), 2 ≤ n →
      ∀ line ∈ (genStmt cg P d n s).1, ¬ line = bLine
  | .assign target value, d, n, hn, line, hmem => by
    rw [genStmt.eq_def] at hmem
    simp only at hmem
    split at hmem
    · split at hmem <;>
        (rcases List.mem_singleton.mp hmem with rfl
         exact semicolon_ne_bLine _)
    · rcases List.mem_singleton.mp hmem with rfl
      exact semicolon_ne_bLine _
  | .ret v, d, n, hn, line, hmem => by
    rw [genStmt.eq_def] at hmem
    simp only at hmem
    rcases List.mem_singleton.mp hmem with rfl
    exact semicolon_ne_bLine _
  | .exprStmt e, d, n, hn, line, hmem => by
    rw [genStmt.eq_def] at hmem
    simp only at hmem
    rcases List.mem_singleton.mp hmem with rfl
    exact semicolon_ne_bLine _
  | .sif cond th el, d, n, hn, line, hmem => by
    rw [genStmt.eq_def] at hmem
    simp only at hmem
    split at hmem
    · rcases List.mem_append.mp hmem with hmem1 | hmem2
      · rcases List.mem_append.mp hmem1 with hmem3 | hmem4
        · rcases List.mem_singleton.mp hmem3 with rfl
          intro hEq
          have hd := congrArg String.data hEq
          simp only [String.data_append, indentStr_data, List.append_assoc,
            show ("if (").data = ['i', 'f', ' ', '('] from rfl,
            show (") \x7b").data = [')', ' ', '\x7b'] from rfl,
            List.cons_append, List.nil_append] at hd
          exact replicate_cons_ne_bLineData (2 * n) (by omega) 'i'
            (by decide) (by decide) _ hd
        · exact genStmts_no_bLine cg P th d (n + 1) (by omega) line hmem4
      · rcases List.mem_singleton.mp hmem2 with rfl
        intro hEq
        have hd := congrArg String.data hEq
        simp only [String.data_append, indentStr_data, List.append_assoc,
          show ("\x7d").data = ['\x7d'] from rfl,
          List.cons_append, List.nil_append] at hd
        exact replicate_cons_ne_bLineData (2 * n) (by omega) '\x7d'
          (by decide) (by decide) _ hd
    · rcases List.mem_append.mp hmem with hmem1 | hmem2
      · rcases List.mem_append.mp hmem1 with hmem3 | hmem4
        · rcases List.mem_append.mp hmem3 with hmem5 | hmem6
          · rcases List.mem_append.mp hmem5 with hmem7 | hmem8
            · rcases List.mem_singleton.mp hmem7 with rfl
              intro hEq
              have hd := congrArg String.data hEq
              simp only [String.data_append, indentStr_data, List.append_assoc,
                show ("if (").data = ['i', 'f', ' ', '('] from rfl,
                show (") \x7b").data = [')', ' ', '\x7b'] from rfl,
                List.cons_append, List.nil_append] at hd
              exact replicate_cons_ne_bLineData (2 * n) (by omega) 'i'
                (by decide) (by decide) _ hd
            · exact genStmts_no_bLine cg P th d (n + 1) (by omega) line hmem8
          · rcases List.mem_singleton.mp hmem6 with rfl
            intro hEq
            have hd := congrArg String.data hEq
            simp only [String.data_append, indentStr_data, List.append_assoc,
              show ("\x7d else \x7b").data = ['\x7d', ' ', 'e', 'l', 's', 'e', ' ', '\x7b'] from rfl,
              List.cons_append, List.nil_append] at hd
            exact replicate_cons_ne_bLineData (2 * n) (by omega) '\x7d'
              (by decide) (by decide) _ hd
        · exact genStmts_no_bLine cg P el _ (n + 1) (by omega) line hmem4
      · rcases List.mem_singleton.mp hmem2 with rfl
        intro hEq
        have hd := congrArg String.data hEq
        simp only [String.data_append, indentStr_data, List.append_assoc,
          show ("\x7d").data = ['\x7d'] from rfl,
          List.cons_append, List.nil_append] at hd
        exact replicate_cons_ne_bLineData (2 * n) (by omega) '\x7d'
          (by decide) (by decide) _ hd
  | .sfor v iter body, d, n, hn, line, hmem => by
    rw [genStmt.eq_def] at hmem
    simp only at hmem
    split at hmem
    · rcases List.mem_append.mp hmem with hmem1 | hmem2
      · rcases List.mem_append.mp hmem1 with hmem3 | hmem4
        · rcases List.mem_singleton.mp hmem3 with rfl
          intro hEq
          have hd := congrArg String.data hEq
          simp only [String.data_append, indentStr_data, List.append_assoc,
            show ("for (int ").data = ['f', 'o', 'r', ' ', '(', 'i', 'n', 't', ' '] from rfl,
            List.cons_append, List.nil_append] at hd
          exact replicate_cons_ne_bLineData (2 * n) (by omega) 'f'
            (by decide) (by decide) _ hd
        · exact genStmts_no_bLine cg P body _ (n + 1) (by omega) line hmem4
      · rcases List.mem_singleton.mp hmem2 with rfl
        intro hEq
        have hd := congrArg String.data hEq
        simp only [String.data_append, indentStr_data, List.append_assoc,
          show ("\x7d").data = ['\x7d'] from rfl,
          List.cons_append, List.nil_append] at hd
        exact replicate_cons_ne_bLineData (2 * n) (by omega) '\x7d'
          (by decide) (by decide) _ hd
    · rcases List.mem_append.mp hmem with hmem1 | hmem2
      · rcases List.mem_append.mp hmem1 with hmem3 | hmem4
        · rcases List.mem_singleton.mp hmem3 with rfl
          intro hEq
          have hd := congrArg String.data hEq
          simp only [String.data_append, indentStr_data, List.append_assoc,
            show ("for (var ").data = ['f', 'o', 'r', ' ', '(', 'v', 'a', 'r', ' '] from rfl,
            List.cons_append, List.nil_append] at hd
          exact replicate_cons_ne_bLineData (2 * n) (by omega) 'f'
            (by decide) (by decide) _ hd
        · exact genStmts_no_bLine cg P body d (n + 1) (by omega) line hmem4
      · rcases List.mem_singleton.mp hmem2 with rfl
        intro hEq
        have hd := congrArg String.data hEq
        simp only [String.data_append, indentStr_data, List.append_assoc,
          show ("\x7d").data = ['\x7d'] from rfl,
          List.cons_append, List.nil_append] at hd
        exact replicate_cons_ne_bLineData (2 * n) (by omega) '\x7d'
          (by decide) (by decide) _ hd
  | .modify target attrs, d, n, hn, line, hmem => by
    rw [genStmt.eq_def] at hmem
    simp only at hmem
    split at hmem
    · split at hmem
      · obtain ⟨p, hp, rfl⟩ := List.mem_map.mp hmem
        exact semicolon_ne_bLine _
      · split at hmem
        · obtain ⟨p, hp, rfl⟩ := List.mem_map.mp hmem
          exact semicolon_ne_bLine _
        · obtain ⟨p, hp, rfl⟩ := List.mem_map.mp hmem
          exact semicolon_ne_bLine _
    · split at hmem
      · split at hmem
        · obtain ⟨p, hp, rfl⟩ := List.mem_map.mp hmem
          exact semicolon_ne_bLine _
        · exact absurd hmem (List.not_mem_nil line)
      · exact absurd hmem (List.not_mem_nil line)
    · exact absurd hmem (List.not_mem_nil line)

/-- No line emitted for a statement list at indent two or deeper is the
reactivity-boundary opening line. -/
theorem genStmts_no_bLine (cg : Cg) (P : Program) :
    ∀ (l : List Stmt) (d : Dyn) (n : Nat), 2 ≤ n →
      ∀ line ∈ (genStmts cg P d n l).1, ¬ line = bLine
  | [], _, _, _, _, hmem => by exact absurd hmem (List.not_mem_nil _)
  | s :: rest, d, n, hn, line, hmem => by
    rw [genStmts] at hmem
    simp only at hmem
    rcases List.mem_append.mp hmem with h | h
    · exact genStmt_no_bLine cg P s d n hn line h
    · exact genStmts_no_bLine cg P rest _ n hn line h

end

mutual

/-- The pass-4 scan of one statement collects exactly the accumulator plus
the name, when it is a declared function different from the current one and
called by a bare expression statement somewhere in the statement. -/
theorem mem_findCallsStmt_iff (fnames : List String) (current g : String) :
    ∀ (s : Stmt) (acc : List String),
      g ∈ findCallsStmt fnames current acc s ↔
        g ∈ acc ∨ (g ∈ fnames ∧ g ≠ current ∧ stmtHasExprCallOf g s = true)
  | .assign t v, acc => by
    rw [findCallsStmt.eq_def, stmtHasExprCallOf.eq_def]
    simp
  | .ret v, acc => by
    rw [findCallsStmt.eq_def, stmtHasExprCallOf.eq_def]
    simp
  | .modify t attrs, acc => by
    rw [findCallsStmt.eq_def, stmtHasExprCallOf.eq_def]
    simp
  | .exprStmt e, acc => by
    rw [findCallsStmt.eq_def, stmtHasExprCallOf.eq_def]
    simp only
    split
    · rename_i fname args
      split
      · rename_i hcond
        simp only [Bool.and_eq_true, decide_eq_true_eq] at hcond
        rw [mem_insertIfAbsent]
        constructor
        · rintro (h | rfl)
          · exact Or.inl h
          · exact Or.inr ⟨hcond.1, hcond.2, by simp⟩
        · rintro (h | ⟨hf, hc, heq⟩)
          · exact Or.inl h
          · simp only [decide_eq_true_eq] at heq
            exact Or.inr heq.symm
      · rename_i hcond
        simp only [Bool.and_eq_true, decide_eq_true_eq, not_and] at hcond
        constructor
        · exact Or.inl
        · rintro (h | ⟨hf, hc, heq⟩)
          · exact h
          · simp only [decide_eq_true_eq] at heq
            subst heq
            exact absurd hc (by intro hcc; exact (hcond hf) hcc)
    · simp
  | .sif c th el, acc => by
    rw [findCallsStmt.eq_def, stmtHasExprCallOf.eq_def]
    simp only
    rw [mem_findCallsStmts_iff fnames current g el _,
      mem_findCallsStmts_iff fnames current g th acc]
    simp only [Bool.or_eq_true]
    tauto
  | .sfor v it b, acc => by
    rw [findCallsStmt.eq_def, stmtHasExprCallOf.eq_def]
    simp only
    rw [mem_findCallsStmts_iff fnames current g b acc]

/-- List version of the pass-4 collection characterization. -/
theorem mem_findCallsStmts_iff (fnames : List String) (current g : String) :
    ∀ (l : List Stmt) (acc : List String),
      g ∈ findCallsStmts fnames current acc l ↔
        g ∈ acc ∨ (g ∈ fnames ∧ g ≠ current ∧ stmtsHaveExprCallOf g l = true)
  | [], acc => by
    rw [findCallsStmts.eq_def, stmtsHaveExprCallOf.eq_def]
    simp
  | s :: rest, acc => by
    rw [findCallsStmts.eq_def, stmtsHaveExprCallOf.eq_def]
    simp only
    rw [mem_findCallsStmts_iff fnames current g rest _,
      mem_findCallsStmt_iff fnames current g s acc]
    simp only [Bool.or_eq_true]
    tauto

end

/-- The pass-4 called-by set holds exactly the declared functions invoked by
a bare expression-statement call inside a different function. -/
theorem calledByOf_iff (P : Program) (g : String) :
    g ∈ calledByOf P ↔
      (g ∈ P.functions.map Prod.fst ∧ SpecCalledB P g = true) := by
  have hmapeq : P.functions.map (fun x => x.1) = P.functions.map Prod.fst := rfl
  have hfold : ∀ (l : List (String × Func)) (acc : List String),
      g ∈ l.foldl
        (fun acc p =>
          findCallsStmts (P.functions.map (fun x => x.1)) p.1 acc p.2.body)
        acc ↔
        g ∈ acc ∨ ∃ p ∈ l, g ∈ P.functions.map Prod.fst ∧ g ≠ p.1 ∧
          stmtsHaveExprCallOf g p.2.body = true := by
    intro l
    induction l with
    | nil => intro acc; simp
    | cons p rest ih =>
      intro acc
      rw [List.foldl_cons, ih,
        mem_findCallsStmts_iff (P.functions.map (fun x => x.1)) p.1 g p.2.body acc,
        hmapeq]
      constructor
      · rintro (( h | h) | ⟨q, hq, hmemf, hne, hcall⟩)
        · exact Or.inl h
        · exact Or.inr ⟨p, List.mem_cons_self p rest, h.1, h.2.1, h.2.2⟩
        · exact Or.inr ⟨q, List.mem_cons_of_mem p hq, hmemf, hne, hcall⟩
      · rintro (h | ⟨q, hq, hmemf, hne, hcall⟩)
        · exact Or.inl (Or.inl h)
        · rcases List.mem_cons.mp hq with rfl | hq2
          · exact Or.inl (Or.inr ⟨hmemf, hne, hcall⟩)
          · exact Or.inr ⟨q, hq2, hmemf, hne, hcall⟩
  show g ∈ P.functions.foldl
      (fun acc p =>
        findCallsStmts (P.functions.map (fun x => x.1)) p.1 acc p.2.body)
      [] ↔ _
  rw [hfold]
  simp only [List.not_mem_nil, false_or]
  constructor
  · rintro ⟨p, hp, hmemf, hne, hcall⟩
    refine ⟨hmemf, ?_⟩
    rw [SpecCalledB, List.any_eq_true]
    exact ⟨p, hp, by simp [Bool.and_eq_true, hcall]; intro h; exact hne h.symm⟩
  · rintro ⟨hmemf, hspec⟩
    rw [SpecCalledB, List.any_eq_true] at hspec
    obtain ⟨p, hp, hcond⟩ := hspec
    simp only [Bool.and_eq_true, decide_eq_true_eq] at hcond
    exact ⟨p, hp, hmemf, fun h => hcond.1 h.symm, hcond.2⟩

/-- A line differing from the boundary at its third character is not the
boundary line. -/
lemma two_space_cons_ne_bLineData (c : Char) (hc : ¬ c = ' ')
    (tail : List Char) : ¬ (' ' :: ' ' :: c :: tail = bLine.data) := by
  intro h
  rw [bLineData] at h
  injection h with _ h
  injection h with _ h
  injection h with h6 _
  exact hc h6

/-- Count of the boundary line in the wrapped function shape. -/
lemma count_wrapped (H c1 c2 : String) (inner : List String)
    (hH : ¬ H = bLine) (hc1 : ¬ c1 = bLine) (hc2 : ¬ c2 = bLine)
    (hinner : ∀ line ∈ inner, ¬ line = bLine) :
    ([H, bLine] ++ inner ++ [c1, c2]).count bLine = 1 := by
  have h1 : inner.count bLine = 0 :=
    List.count_eq_zero.mpr (fun h => hinner _ h rfl)
  simp [List.count_append, List.count_cons, h1, hH, hc1, hc2]

/-- Count of the boundary line in the unwrapped function shape. -/
lemma count_unwrapped (H c2 : String) (inner : List String)
    (hH : ¬ H = bLine) (hc2 : ¬ c2 = bLine)
    (hinner : ∀ line ∈ inner, ¬ line = bLine) :
    ([H] ++ inner ++ [c2]).count bLine = 0 := by
  have h1 : inner.count bLine = 0 :=
    List.count_eq_zero.mpr (fun h => hinner _ h rfl)
  simp [List.count_append, List.count_cons, h1, hH, hc2]

/-- C3 (counterexample): f calls g inside an assignment value, so g is
only ever called by another user function; g mutates the global y; yet the
call-graph pass, which only sees bare expression-statement calls, does not
mark g internal and its emitted body is wrapped in a setState boundary. -/
theorem assignment_call_still_wrapped :
    stmtsCallFn "g" [.assign (.evar "x") (.call (.evar "g") [])] = true ∧
    SpecCalledB c3Prog "g" = false ∧
    (analyze c3Prog).calledBy.contains "g" = false ∧
    genFunction (analyze c3Prog) c3Prog "g"
        ⟨[], [.assign (.evar "y") (.lit (.num (.int 1)))]⟩ =
      ["  void g() \x7b", "    setState(() \x7b", "      y = 1;",
       "    \x7d);", "  \x7d"] ∧
    (genFunction (analyze c3Prog) c3Prog "g"
        ⟨[], [.assign (.evar "y") (.lit (.num (.int 1)))]⟩).count bLine = 1 := by
  refine ⟨by decide, by decide, by decide, by decide, by decide⟩

/-- C3 (amended): the call-graph pass marks a function internal exactly
when it is a declared function invoked by a BARE expression-statement call
inside a different function; a state-mutating function not so called is
wrapped in exactly one setState boundary, and a state-mutating function so
called is emitted with no boundary at all.  Calls in any other expression
position (assignments, returns, arguments, conditions) do not count. -/
theorem reactivity_boundary_bare_call_graph (P : Program) (fname : String)
    (fn : Func) (hstate : hasStateChangesL fn.body = true) :
    ((analyze P).calledBy.contains fname = true ↔
      (fname ∈ P.functions.map Prod.fst ∧ SpecCalledB P fname = true)) ∧
    (SpecCalledB P fname = false →
      (genFunction (analyze P) P fname fn).count bLine = 1) ∧
    (fname ∈ P.functions.map Prod.fst → SpecCalledB P fname = true →
      (genFunction (analyze P) P fname fn).count bLine = 0) := by
  have hiff : (analyze P).calledBy.contains fname = true ↔
      (fname ∈ P.functions.map Prod.fst ∧ SpecCalledB P fname = true) := by
    have h1 : (analyze P).calledBy.contains fname = true ↔
        fname ∈ (analyze P).calledBy := List.elem_iff
    rw [h1]
    exact calledByOf_iff P fname
  refine ⟨hiff, ?_, ?_⟩
  · intro hspec
    have hint : (analyze P).calledBy.contains fname = false := by
      cases hb : (analyze P).calledBy.contains fname
      · rfl
      · have := (hiff.mp hb).2
        rw [hspec] at this
        cases this
    unfold genFunction
    simp only [hstate, hint, Bool.not_false, Bool.and_self, eq_self_iff_true,
      if_true]
    refine count_wrapped _ _ _ _ ?_ (by decide) (by decide)
      (fun line h => genStmts_no_bLine (analyze P) P fn.body _ 3 (by omega) line h)
    intro hEq
    have hd := congrArg String.data hEq
    by_cases hA : hasAsyncCallsL fn.body = true
    · rw [if_pos hA, if_pos hA] at hd
      simp only [String.data_append,
        show ("  ").data = [' ', ' '] from rfl,
        show ("Future<void>").data =
          ['F', 'u', 't', 'u', 'r', 'e', '<', 'v', 'o', 'i', 'd', '>'] from rfl,
        List.cons_append, List.append_assoc, List.nil_append] at hd
      exact two_space_cons_ne_bLineData 'F' (by decide) _ hd
    · rw [if_neg hA, if_neg hA] at hd
      simp only [String.data_append,
        show ("  ").data = [' ', ' '] from rfl,
        show ("void").data = ['v', 'o', 'i', 'd'] from rfl,
        List.cons_append, List.append_assoc, List.nil_append] at hd
      exact two_space_cons_ne_bLineData 'v' (by decide) _ hd
  · intro hmemf hspec
    have hint : (analyze P).calledBy.contains fname = true :=
      hiff.mpr ⟨hmemf, hspec⟩
    unfold genFunction
    simp only [hstate, hint, Bool.not_true, Bool.and_false,
      Bool.false_eq_true, if_false]
    refine count_unwrapped _ _ _ ?_ (by decide)
      (fun line h => genStmts_no_bLine (analyze P) P fn.body _ 2 (by omega) line h)
    intro hEq
    have hd := congrArg String.data hEq
    by_cases hA : hasAsyncCallsL fn.body = true
    · rw [if_pos hA, if_pos hA] at hd
      simp only [String.data_append,
        show ("  ").data = [' ', ' '] from rfl,
        show ("Future<void>").data =
          ['F', 'u', 't', 'u', 'r', 'e', '<', 'v', 'o', 'i', 'd', '>'] from rfl,
        List.cons_append, List.append_assoc, List.nil_append] at hd
      exact two_space_cons_ne_bLineData 'F' (by decide) _ hd
    · rw [if_neg hA, if_neg hA] at hd
      simp only [String.data_append,
        show ("  ").data = [' ', ' '] from rfl,
        show ("void").data = ['v', 'o', 'i', 'd'] from rfl,
        List.cons_append, List.append_assoc, List.nil_append] at hd
      exact two_space_cons_ne_bLineData 'v' (by decide) _ hd

/-- Witness for the amended C3 theorem on the never-called mutating
function h of the witness program. -/
theorem reactivity_boundary_bare_call_graph_witness :
    ((analyze c3wProg).calledBy.contains "h" = true ↔
      ("h" ∈ c3wProg.functions.map Prod.fst ∧ SpecCalledB c3wProg "h" = true)) ∧
    (SpecCalledB c3wProg "h" = false →
      (genFunction (analyze c3wProg) c3wProg "h"
        ⟨[], [.assign (.evar "z") (.lit (.num (.int 1)))]⟩).count bLine = 1) ∧
    ("h" ∈ c3wProg.functions.map Prod.fst → SpecCalledB c3wProg "h" = true →
      (genFunction (analyze c3wProg) c3wProg "h"
        ⟨[], [.assign (.evar "z") (.lit (.num (.int 1)))]⟩).count bLine = 0) :=
  reactivity_boundary_bare_call_graph c3wProg "h"
    ⟨[], [.assign (.evar "z") (.lit (.num (.int 1)))]⟩ (by decide)

/-- Emitted children are either inline nested containers or resolve in the
container mapping. -/
lemma mem_collectChildren (P : Program) (cont : Container) (cn : String)
    (cc : Container) (h : (cn, cc) ∈ collectChildren P cont) :
    (cn, cc) ∈ cont.childrenDef ∨ P.containers.lookup cn = some cc := by
  unfold collectChildren at h
  rcases List.mem_append.mp h with h | h
  · right
    split at h
    · obtain ⟨e, he, heq⟩ := List.mem_filterMap.mp h
      split at heq
      · rw [Option.map_eq_some'] at heq
        obtain ⟨c0, hc0, hpair⟩ := heq
        injection hpair with h1 h2
        subst h1
        subst h2
        exact hc0
      · cases heq
    · cases h
  · exact Or.inl h

/-- C6 (counterexample): a program whose child graph contains the cycle
A-B off the main path is emitted successfully — no validation pass rejects
the cyclic Program before analysis and emission. -/
theorem cyclic_children_not_rejected :
    (generateFullApp c6ProgSide 5).isSome = true ∧
    "B" ∈ childNames c6ProgSide c6ContA ∧
    "A" ∈ childNames c6ProgSide c6ContB ∧
    c6ProgSide.containers.lookup "A" = some c6ContA ∧
    c6ProgSide.containers.lookup "B" = some c6ContB := by
  refine ⟨?_, by decide, by decide, rfl, rfl⟩
  have hM : ∀ fuel : Nat, genWidget (analyze c6ProgSide) c6ProgSide {}
      (fuel + 1) "M" (.mk [("text_content", .lit (.str "hi"))] []) 2 =
      some (genTextWidget (analyze c6ProgSide) {} "M"
        (.mk [("text_content", .lit (.str "hi"))] []) 2) := by
    intro fuel
    simp only [genWidget]
    rw [if_neg (by decide), if_neg (by decide), if_pos (by decide)]
  show (generateFullApp c6ProgSide (4 + 1)).isSome = true
  simp only [generateFullApp, generateAppWidget,
    show c6ProgSide.mainContainer = some "M" from rfl,
    show c6ProgSide.containers.lookup "M" =
      some (.mk [("text_content", .lit (.str "hi"))] []) from rfl,
    hM 4]
  rfl

/-- C6 (amended): no validation pass exists.  Dangling child references are
silently dropped by child collection, not reported as warnings; a cyclic
child graph is not detected, and emission on a Program whose main container
lies on a child cycle recurses without terminating, rendered here as none
at every recursion depth; the cycle aborts nothing when it lies off the
main path. -/
theorem child_graph_unvalidated :
    (∀ (P : Program) (cont : Container) (cn : String) (cc : Container),
      (cn, cc) ∈ collectChildren P cont →
      (cn, cc) ∈ cont.childrenDef ∨ P.containers.lookup cn = some cc) ∧
    (∀ (P : Program) (cont : Container) (cn : String),
      P.containers.lookup cn = none → cn ∉ cont.childrenDef.map Prod.fst →
      cn ∉ childNames P cont) ∧
    (∀ (fuel : Nat) (d : Dyn) (indent : Nat),
      genWidget (analyze c6ProgMain) c6ProgMain d fuel "A" c6ContA indent = none ∧
      genWidget (analyze c6ProgMain) c6ProgMain d fuel "B" c6ContB indent = none) ∧
    (∀ fuel : Nat, generateFullApp c6ProgMain fuel = none) := by
  have hdrop : ∀ (P : Program) (cont : Container) (cn : String),
      P.containers.lookup cn = none → cn ∉ cont.childrenDef.map Prod.fst →
      cn ∉ childNames P cont := by
    intro P cont cn hno hni hmem
    unfold childNames at hmem
    obtain ⟨⟨cn2, cc⟩, hmem2, heq⟩ := List.mem_map.mp hmem
    simp only at heq
    subst heq
    rcases mem_collectChildren P cont cn2 cc hmem2 with h | h
    · exact hni (List.mem_map_of_mem Prod.fst h)
    · rw [hno] at h
      cases h
  have hdiv : ∀ (fuel : Nat) (d : Dyn) (indent : Nat),
      genWidget (analyze c6ProgMain) c6ProgMain d fuel "A" c6ContA indent = none ∧
      genWidget (analyze c6ProgMain) c6ProgMain d fuel "B" c6ContB indent = none := by
    intro fuel
    induction fuel with
    | zero =>
      intro d indent
      constructor <;> simp only [genWidget]
    | succ f ih =>
      intro d indent
      have hA : collectChildren c6ProgMain c6ContA = [("B", c6ContB)] := rfl
      have hB : collectChildren c6ProgMain c6ContB = [("A", c6ContA)] := rfl
      constructor
      · simp only [genWidget]
        rw [if_neg (by decide), if_pos (by decide)]
        simp only [genColumnWidget, hA]
        rw [if_neg (by decide)]
        simp only [genChildWidgets, (ih d (indent + 1)).2]
      · simp only [genWidget]
        rw [if_neg (by decide), if_pos (by decide)]
        simp only [genColumnWidget, hB]
        rw [if_neg (by decide)]
        simp only [genChildWidgets, (ih d (indent + 1)).1]
  refine ⟨fun P cont cn cc h => mem_collectChildren P cont cn cc h,
    hdrop, hdiv, ?_⟩
  intro fuel
  simp only [generateFullApp, generateAppWidget,
    show c6ProgMain.mainContainer = some "A" from rfl,
    show c6ProgMain.containers.lookup "A" = some c6ContA from rfl,
    (hdiv fuel {} 2).1]
  rfl

/-- Witness for the amended C6 theorem: a dangling child reference of the
empty program is dropped, and the cyclic-main program is never emitted at
depth five. -/
theorem child_graph_unvalidated_witness :
    "ghost" ∉ childNames emptyProg (.mk [("children", .arr [.evar "ghost"])] []) ∧
    generateFullApp c6ProgMain 5 = none :=
  ⟨child_graph_unvalidated.2.1 emptyProg
      (.mk [("children", .arr [.evar "ghost"])] []) "ghost" rfl (by decide),
   child_graph_unvalidated.2.2.2 5⟩

/-- Witness for C10: resolution of the concrete import program succeeds, a
fetch failure for a missing module leaves resolution unchanged, and merging a
named item absent from the module is the identity. -/
theorem import_resolution_total_and_skips_failures_witness :
    (resolveImports c4Env 3 c4Prog "app").isOk = true ∧
    resolveImportsCore c4Env 3
        { c4Prog with imports := [⟨"missing.vi", .star⟩] } "app" =
      resolveImportsCore c4Env 3
        { c4Prog with imports := ([] : List ImportDecl) } "app" ∧
    mergeNamed emptyProg c4ModA ["nosuch"] = emptyProg :=
  ⟨import_resolution_total_and_skips_failures.1 c4Env 3 c4Prog "app",
   import_resolution_total_and_skips_failures.2.1 c4Env 3 c4Prog "app"
     [] [] ⟨"missing.vi", .star⟩ rfl,
   import_resolution_total_and_skips_failures.2.2 emptyProg c4ModA ["nosuch"]
     (by intro item h
         simp only [List.mem_singleton] at h
         subst h
         exact ⟨rfl, rfl, rfl⟩)⟩

end ViSpec
